import Mathlib

/-!
Shallow embedding of the core of `lol-cal` (a terminal dashboard for esports
schedules) and proofs about it.  The embedding follows the Rust sources:

 * `src/resources.rs`   — `ResourceManager::{get_leagues, get_schedule}` and
   the `From` conversions from the network types to the domain types;
 * `src/widgets/events.rs` — the domain `Event` model, `ScheduleState`
   (selection / offset navigation), the `Events` index of per-league event
   lists, and the viewport window computation `get_events_bounds`;
 * `src/widgets/leagues.rs` — the `League` list and its toggle `select`;
 * `src/net/{leagues,schedule}.rs` — the deserialized remote records.

Rust `usize` values are modelled as `Nat`.  The sources use `saturating_sub`
(which is exactly `Nat` subtraction) and, for the viewport height counters,
plain `+` / `saturating_add`; saturation at `usize::MAX` is unreachable there
because every counter is bounded by `4 * len + ...` for a vector of 8-byte
references whose length cannot exceed `2^60`, so those are modelled as plain
`Nat` addition.  Where the saturation bound of an operation is reachable from
an arbitrary state (the scroll operations), it is modelled explicitly.
Fallible operations (slice indexing, `unwrap`, index arithmetic that panics
on underflow in debug builds) are modelled in `Option`, `none` marking a
panic.
-/

namespace LolCal

/-- Instants on the model timeline, in minutes.  Mirrors chrono's
`DateTime<Local>` as used by the program: a totally ordered timestamp from
which only ordering, differences against fixed thresholds, and the calendar
day are consumed. -/
abbrev Time := Int

/-- Minutes in one day. -/
def minutesPerDay : Int := 1440

/-- Mirrors chrono's `date_naive()`: the calendar day an instant falls on,
as a day number on the model timeline. -/
def dateNaive (t : Int) : Int := Int.fdiv t minutesPerDay

/-- Mirrors `chrono::Duration::days(n)` on the minute timeline. -/
def days (n : Int) : Int := n * minutesPerDay

/-- Mirrors `chrono::Duration::minutes(n)` on the minute timeline. -/
def minutes (n : Int) : Int := n

/-- `usize::MAX`, the saturation bound of `usize::saturating_add`. -/
def USIZE_MAX : Nat := 2 ^ 64 - 1

/-- `usize::saturating_add`. -/
def saturatingAdd (a b : Nat) : Nat := min (a + b) USIZE_MAX

/-! ## Domain data model (src/widgets/events.rs, src/widgets/leagues.rs) -/

/-- `StratType` of `src/widgets/events.rs`. -/
inductive StratType where
  | BestOf (s : String)
  | PlayAll (s : String)
  | Unknown (s : String)
  deriving DecidableEq, Repr

/-- `StratType::get_string`. -/
def StratType.get_string : StratType → String
  | .BestOf s => s
  | .PlayAll s => s
  | .Unknown s => s

/-- `impl From<String> for StratType`. -/
def StratType.fromString (name : String) : StratType :=
  match name with
  | "bestOf" => .BestOf "Best of"
  | "playAll" => .PlayAll "Play all"
  | _ => .Unknown name

/-- `MatchState` of `src/widgets/events.rs`. -/
inductive MatchState where
  | Completed (s : String)
  | InProgress (s : String)
  | Unstarted (s : String)
  | Unknown (s : String)
  deriving DecidableEq, Repr

/-- `MatchState::get_string`. -/
def MatchState.get_string : MatchState → String
  | .Completed s => s
  | .InProgress s => s
  | .Unstarted s => s
  | .Unknown s => s

/-- `impl From<String> for MatchState`. -/
def MatchState.fromString (name : String) : MatchState :=
  match name with
  | "completed" => .Completed "Completed"
  | "inProgress" => .InProgress "In progress"
  | "unstarted" => .Unstarted "Unstarted"
  | _ => .Unknown name

/-- `Team` of `src/widgets/events.rs`. -/
structure Team where
  name : String
  short : String
  deriving DecidableEq, Repr

/-- `MatchResult` of `src/widgets/events.rs`; the `game_wins` pair holds
`u16` values. -/
structure MatchResult where
  game_wins : Nat × Nat
  deriving DecidableEq, Repr

/-- `Strategy` of `src/widgets/events.rs`; `count` holds a `u16` value. -/
structure Strategy where
  strat_type : StratType
  count : Nat
  deriving DecidableEq, Repr

/-- `Event` of `src/widgets/events.rs`. -/
structure Event where
  start_time : Int
  league_name : String
  block_name : String
  strategy : Strategy
  state : MatchState
  result : Option MatchResult
  teams : List Team
  deriving DecidableEq, Repr

instance : Inhabited Event :=
  ⟨⟨0, "", "", ⟨.Unknown "", 0⟩, .Unknown "", none, []⟩⟩

/-- `League` of `src/widgets/leagues.rs`. -/
structure League where
  name : String
  region : String
  id : String
  selected : Bool
  deriving DecidableEq, Repr

/-! ## Remote records (src/net/leagues.rs, src/net/schedule.rs) -/

/-- `net::leagues::League`.  `priority` holds an `i64`. -/
structure NetLeague where
  name : String
  slug : String
  id : String
  image : String
  priority : Int
  region : String
  deriving DecidableEq, Repr

/-- `net::schedule::Resultt`.  `game_wins` holds an `i64`. -/
structure NetResultt where
  game_wins : Int
  outcome : Option String
  deriving DecidableEq, Repr

/-- `net::schedule::Record`. -/
structure NetRecord where
  losses : Int
  wins : Int
  deriving DecidableEq, Repr

/-- `net::schedule::Team`. -/
structure NetTeam where
  code : String
  image : String
  name : String
  result : Option NetResultt
  record : Option NetRecord
  deriving DecidableEq, Repr

/-- `net::schedule::Strategy`.  `count` holds an `i64`. -/
structure NetStrategy where
  count : Int
  type_field : String
  deriving DecidableEq, Repr

/-- `net::schedule::League` (the league header inside an event). -/
structure NetEventLeague where
  name : String
  slug : String
  deriving DecidableEq, Repr

/-- `net::schedule::Match`. -/
structure NetMatch where
  teams : List NetTeam
  id : String
  strategy : NetStrategy
  deriving DecidableEq, Repr

/-- `net::schedule::Event`. -/
structure NetEvent where
  start_time : String
  block_name : String
  match_field : NetMatch
  state : String
  type_field : String
  league : NetEventLeague
  deriving DecidableEq, Repr

/-- `net::schedule::Pages`. -/
structure NetPages where
  older : Option String
  newer : Option String
  deriving DecidableEq, Repr

/-- `net::schedule::Schedule`. -/
structure NetSchedule where
  pages : NetPages
  events : List NetEvent
  deriving DecidableEq, Repr

/-! ## Conversions from remote records (src/resources.rs, lines 158-208) -/

/-- The numeric value of an ASCII digit character, or `none`. -/
def digitVal (c : Char) : Option Nat :=
  if c.isDigit then some (c.toNat - 48) else none

/-- Two-digit decimal field of a timestamp. -/
def twoDigits (a b : Char) : Option Nat := do
  let x ← digitVal a
  let y ← digitVal b
  pure (10 * x + y)

/-- Models chrono's `str::parse::<DateTime<Utc>>` (an external library
function used by `From<net::schedule::Event> for Event`): accepts an
RFC 3339 timestamp of the exact shape `YYYY-MM-DDTHH:MM:SSZ` and maps it
to an instant on the model timeline (months flattened at 12/year and days
at 31/month; seconds are validated but dropped, the timeline being in
minutes — only success/failure and rough ordering matter to this
development); any other string fails to parse. -/
def parseDateTime (s : String) : Option Int :=
  match s.toList with
  | [y1, y2, y3, y4, '-', m1, m2, '-', d1, d2, 'T',
     h1, h2, ':', n1, n2, ':', s1, s2, 'Z'] => do
      let yh ← twoDigits y1 y2
      let yl ← twoDigits y3 y4
      let mo ← twoDigits m1 m2
      let da ← twoDigits d1 d2
      let ho ← twoDigits h1 h2
      let mi ← twoDigits n1 n2
      let _ ← twoDigits s1 s2
      pure ((((((yh * 100 + yl) * 12 + mo) * 31 + da) * 24 + ho) * 60 + mi : Nat) : Int)
  | _ => none

/-- `impl From<net::leagues::League> for League` (src/resources.rs,
lines 158-167). -/
def League.fromNet (net_league : NetLeague) : League :=
  { id := net_league.id
    name := net_league.name
    region := net_league.region
    selected := false }

/-- `impl From<&net::schedule::Match> for Option<MatchResult>`
(src/resources.rs, lines 198-208).  The Rust code indexes `teams[0]` and
`teams[1]` unconditionally, so a match with fewer than two teams panics:
the outer `Option` marks that panic.  `game_wins as u16` truncates the
`i64` to its low 16 bits. -/
def matchResultFromNet (net_match : NetMatch) : Option (Option MatchResult) :=
  match net_match.teams[0]?, net_match.teams[1]? with
  | some t0, some t1 =>
      some (match t0.result, t1.result with
        | some rec0, some rec1 =>
            some { game_wins := ((rec0.game_wins % 65536).toNat,
                                 (rec1.game_wins % 65536).toNat) }
        | _, _ => none)
  | _, _ => none

/-- `impl From<net::schedule::Event> for Event` (src/resources.rs,
lines 169-196).  The Rust code calls `.parse::<DateTime<Utc>>().unwrap()`
on `start_time` and builds the match result via the panicking conversion
above, so the result is `none` (a panic) when the timestamp does not parse
or the match has fewer than two teams.  `with_timezone(&Local)` preserves
the instant and is the identity on the model timeline.
`strategy.count as u16` truncates the `i64` to its low 16 bits. -/
def Event.fromNet (net_event : NetEvent) : Option Event :=
  match parseDateTime net_event.start_time,
        matchResultFromNet net_event.match_field with
  | some t, some res =>
      some { start_time := t
             league_name := net_event.league.name
             block_name := net_event.block_name
             strategy := { strat_type := StratType.fromString
                             net_event.match_field.strategy.type_field
                           count := (net_event.match_field.strategy.count % 65536).toNat }
             state := MatchState.fromString net_event.state
             result := res
             teams := net_event.match_field.teams.map
                        (fun team => { name := team.name, short := team.code }) }
  | _, _ => none

/-! ## ResourceManager (src/resources.rs, lines 63-155)

The asynchronous I/O collaborators are abstracted by their results:
`cacheRes` is the outcome of `load_from_cache` (`none` covering `NotFound`,
a corrupt record, and any other I/O failure, which the code treats
identically) and `fetchRes` the outcome of the remote fetch (`none` for any
fetch error).  `cache_data` only writes the cache back and does not affect
the returned value, so it does not appear. -/

/-- The fetch-and-convert tail of `get_leagues` (src/resources.rs,
lines 78-95): on a successful fetch, map the remote leagues into domain
leagues and return them; on failure return `None`. -/
def fetchLeaguesPath (fetchRes : Option (List NetLeague)) : Option (List League) :=
  match fetchRes with
  | some leagues => some (leagues.map League.fromNet)
  | none => none

/-- `ResourceManager::get_leagues` (src/resources.rs, lines 63-96). -/
def get_leagues (now : Int) (cacheRes : Option (List League × Int))
    (fetchRes : Option (List NetLeague)) : Option (List League) :=
  match cacheRes with
  | some (leagues, cached_time) =>
      if cached_time < now - days 7 then fetchLeaguesPath fetchRes
      else some leagues
  | none => fetchLeaguesPath fetchRes

/-- The content check of `get_schedule` (src/resources.rs, lines 121-123):
some cached event has the state string `"Unstarted"` and a start time in
the past. -/
def hasInvalidEvent (now : Int) (events : List Event) : Bool :=
  events.any (fun e => e.state.get_string == "Unstarted" && decide (e.start_time < now))

/-- The fetch-and-convert tail of `get_schedule` (src/resources.rs,
lines 134-154): on a successful fetch, convert every remote event — the
conversion can panic (outer `none`) — and return the converted list; on
fetch failure return `None` (the inner `none`). -/
def fetchSchedulePath (fetchRes : Option NetSchedule) :
    Option (Option (List Event)) :=
  match fetchRes with
  | some schedule => (schedule.events.mapM Event.fromNet).map some
  | none => some none

/-- `ResourceManager::get_schedule` (src/resources.rs, lines 98-155).
The outer `Option` marks a panic inside the remote-event conversion;
`some none` is the clean absence the function returns on failure. -/
def get_schedule (now : Int) (cacheRes : Option (List Event × Int))
    (fetchRes : Option NetSchedule) : Option (Option (List Event)) :=
  match cacheRes with
  | some (events, cached_time) =>
      if cached_time < now - days 3 then fetchSchedulePath fetchRes
      else if cached_time > now - minutes 5 then some (some events)
      else if hasInvalidEvent now events then fetchSchedulePath fetchRes
      else some (some events)
  | none => fetchSchedulePath fetchRes

/-- The freshness decision implicit in the cache checks of `get_schedule`,
in the spec's verdict vocabulary (`FreshnessVerdict`). -/
inductive StaleReason where
  | TooOld
  | ContentInvalid
  deriving DecidableEq, Repr

/-- `Fresh | Stale(reason)` of the spec's `FreshnessPolicy`. -/
inductive Verdict where
  | Fresh
  | Stale (reason : StaleReason)
  deriving DecidableEq, Repr

/-- The schedule freshness decision taken by `get_schedule`
(src/resources.rs, lines 110-129), named case by case: the first `break
'fetch` is `Stale TooOld`, the early `return` is `Fresh`, the content
`break 'fetch` is `Stale ContentInvalid`, and the final `return` is
`Fresh`. -/
def scheduleVerdict (now cached_time : Int) (events : List Event) : Verdict :=
  if cached_time < now - days 3 then .Stale .TooOld
  else if cached_time > now - minutes 5 then .Fresh
  else if hasInvalidEvent now events then .Stale .ContentInvalid
  else .Fresh

/-- The three-zone freshness table exactly as the spec states it
(spec §4.2), as a pure function of the record's age and of the content
bit.  This is the definition written from the spec's words, to be compared
with `scheduleVerdict`, the one written from the code. -/
def specThreeZone (age : Int) (has_invalid : Bool) : Verdict :=
  if age > days 3 then .Stale .TooOld
  else if age < minutes 5 then .Fresh
  else if has_invalid then .Stale .ContentInvalid
  else .Fresh

/-! ## ScheduleState and the Events index (src/widgets/events.rs) -/

/-- `ScheduleState` of `src/widgets/events.rs`. -/
structure ScheduleState where
  focused : Bool
  spoil_results : Bool
  spoil_matches : Bool
  offset : Nat
  selected : Option Nat
  deriving DecidableEq, Repr

/-- `ScheduleState::select` (src/widgets/events.rs, lines 118-123). -/
def ScheduleState.select (st : ScheduleState) (index : Option Nat) : ScheduleState :=
  if index.isNone then { st with selected := index, offset := 0 }
  else { st with selected := index }

/-- `matches!(e.state, MatchState::InProgress(_))`. -/
def MatchState.isInProgress : MatchState → Bool
  | .InProgress _ => true
  | _ => false

/-- `Events` of `src/widgets/events.rs`.  The `HashMap<String, Vec<Event>>`
is modelled as an association list (the code only iterates it and the
claims in scope are stated over the resulting visible sequence); the
`config` field holds only styling and is read by none of the operations
modelled here, so it is omitted. -/
structure Events where
  active : List String
  events : List (String × List Event)
  deriving DecidableEq, Repr

/-- The visible event sequence built by `select_today` and `render_ref`
(src/widgets/events.rs, lines 129-136 and 295-300, identical code): the
per-league lists of the active leagues, flattened and sorted by
`start_time` (Rust's stable `sort_by_key`, modelled by `mergeSort`). -/
def Events.visibleEvents (evs : Events) : List Event :=
  ((evs.events.filter (fun p => evs.active.contains p.1)).flatMap
      (fun p => p.2)).mergeSort
    (fun a b => a.start_time ≤ b.start_time)

/-- `ScheduleState::select_today` (src/widgets/events.rs, lines 125-148). -/
def ScheduleState.select_today (st : ScheduleState) (events : Events)
    (today : Int) : ScheduleState :=
  let evts := events.visibleEvents
  if evts.isEmpty then st
  else
    let sel := evts.findIdx?
      (fun e => today ≤ e.start_time || e.state.isInProgress)
    let selected := some (sel.getD (evts.length - 1))
    { st with selected := selected, offset := selected.getD 0 }

/-- `ScheduleState::scroll_up_by` (src/widgets/events.rs, lines 150-155);
`amount` holds a `u16` value and `saturating_sub` on `usize` is `Nat`
subtraction. -/
def ScheduleState.scroll_up_by (st : ScheduleState) (amount : Nat) :
    ScheduleState :=
  match st.selected with
  | some sel => { st with selected := some (sel - amount) }
  | none => { st with selected := some st.offset }

/-- `ScheduleState::scroll_down_by` (src/widgets/events.rs, lines 157-162);
`saturating_add` on `usize` saturates at `usize::MAX`. -/
def ScheduleState.scroll_down_by (st : ScheduleState) (amount : Nat) :
    ScheduleState :=
  match st.selected with
  | some sel => { st with selected := some (saturatingAdd sel amount) }
  | none => { st with selected := some st.offset }

/-- `Events::set_active` (src/widgets/events.rs, lines 179-184):
push the slug unless it is already present. -/
def Events.set_active (evs : Events) (slug : String) : Events :=
  if evs.active.contains slug then evs
  else { evs with active := evs.active ++ [slug] }

/-- `Events::unset_active` (src/widgets/events.rs, lines 186-191):
remove the first occurrence of the slug, if any. -/
def Events.unset_active (evs : Events) (slug : String) : Events :=
  match evs.active.findIdx? (fun x => x == slug) with
  | some pos => { evs with active := evs.active.eraseIdx pos }
  | none => evs

/-! ## The league list (src/widgets/leagues.rs) -/

/-- `Leagues` of `src/widgets/leagues.rs` (the `config` field holds only
styling and is omitted). -/
structure Leagues where
  leagues : List League
  deriving DecidableEq, Repr

/-- `Leagues::select` (src/widgets/leagues.rs, lines 52-64).  The
`ListState` argument is abstracted by its selected index.  Flips the
selected league's flag in place and reports the new flag and the league
id. -/
def Leagues.select (lgs : Leagues) (state_selected : Option Nat) :
    Leagues × Option (Bool × String) :=
  match state_selected with
  | some i =>
      match lgs.leagues[i]? with
      | some league =>
          let league := { league with selected := !league.selected }
          ({ leagues := lgs.leagues.set i league },
           if league.selected then some (true, league.id)
           else some (false, league.id))
      | none => (lgs, none)
  | none => (lgs, none)

/-! ## Viewport window computation (src/widgets/events.rs, lines 193-283)

`Events::get_events_bounds` is three sequential loops over loop variables
`(first_visible_index, last_visible_index, height_from_offset, last_date)`.
Each `while` loop is modelled by a fuel-indexed recursive function; the
fuel passed at every call site provably exceeds the iteration count, so
`none` results come only from the panicking operations of the source
(out-of-range slice indexing, and the `usize` subtractions that underflow),
never from fuel.  -/

/-- `DATE_HEIGHT` of src/widgets/events.rs. -/
def DATE_HEIGHT : Nat := 2

/-- `EVENT_HEIGHT` of src/widgets/events.rs. -/
def EVENT_HEIGHT : Nat := 2

/-- The forward fill (src/widgets/events.rs, lines 209-225): the `for`
loop over `events.iter().skip(offset)`, advancing `last_visible_index`
while accumulating `height_from_offset` and `last_date`.  Arguments:
the remaining events, then `last_visible_index`, `height_from_offset`,
`last_date`. -/
def fillLoop (maxHeight : Nat) :
    List Event → Nat → Nat → Option Int → Nat × Nat × Option Int
  | [], last, height, lastDate => (last, height, lastDate)
  | event :: rest, last, height, lastDate =>
    if height + EVENT_HEIGHT > maxHeight then (last, height, lastDate)
    else
      let current_date := dateNaive event.start_time
      if some current_date ≠ lastDate then
        if height + DATE_HEIGHT + EVENT_HEIGHT > maxHeight then
          (last, height, lastDate)
        else
          fillLoop maxHeight rest (last + 1)
            (height + DATE_HEIGHT + EVENT_HEIGHT) (some current_date)
      else
        fillLoop maxHeight rest (last + 1) (height + EVENT_HEIGHT) lastDate

/-- The front shrink (src/widgets/events.rs, lines 240-255): `while
height_from_offset > max_height`, drop the front event, subtracting its
header cost when its date differs from the next event's (reading
`events[first + 1]` only when `first + 1 <= last`, `None` otherwise).
Returns the new `(first_visible_index, height_from_offset)`. -/
def shrinkFront (events : List Event) (maxHeight : Nat) :
    Nat → Nat → Nat → Nat → Option (Nat × Nat)
  | 0, _, _, _ => none
  | fuel + 1, first, last, height =>
    if height > maxHeight then do
      let eFirst ← events[first]?
      let first_date := dateNaive eFirst.start_time
      let second_last_date ←
        (if first + 1 ≤ last then
          (events[first + 1]?).map (fun e => some (dateNaive e.start_time))
        else some none)
      let height :=
        if some first_date ≠ second_last_date then height - DATE_HEIGHT
        else height
      shrinkFront events maxHeight fuel (first + 1) last (height - EVENT_HEIGHT)
    else some (first, height)

/-- The forward growth (src/widgets/events.rs, lines 229-256): `while
index_to_display >= last_visible_index`, append the next event at the back
(charging its header cost against the tracked `last_date`) and then shrink
from the front until the window fits again.  Returns the new
`(first, last, height, last_date)`. -/
def growSel (events : List Event) (maxHeight index_to_display : Nat) :
    Nat → Nat → Nat → Nat → Option Int → Option (Nat × Nat × Nat × Option Int)
  | 0, _, _, _, _ => none
  | fuel + 1, first, last, height, lastDate =>
    if last ≤ index_to_display then do
      let e ← events[last]?
      let date := dateNaive e.start_time
      let hd :=
        if some date ≠ lastDate then (height + DATE_HEIGHT, some date)
        else (height, lastDate)
      let height := hd.1 + EVENT_HEIGHT
      let last := last + 1
      let fh ← shrinkFront events maxHeight (height + 1) first last height
      growSel events maxHeight index_to_display fuel fh.1 last fh.2 hd.2
    else some (first, last, height, lastDate)

/-- The back shrink (src/widgets/events.rs, lines 268-275): `while
height_from_offset > max_height`, decrement `last_visible_index` and drop
that event, subtracting its header cost when its date differs from its
predecessor's.  The decrement and the predecessor read underflow (panic)
when `last_visible_index` is 0 or 1.  Returns the new `(last, height)`. -/
def shrinkBack (events : List Event) (maxHeight : Nat) :
    Nat → Nat → Nat → Option (Nat × Nat)
  | 0, _, _ => none
  | fuel + 1, last, height =>
    if height > maxHeight then
      match last with
      | lp + 2 => do
        let eLast ← events[lp + 1]?
        let ePrev ← events[lp]?
        let last_date := dateNaive eLast.start_time
        let height :=
          if last_date ≠ dateNaive ePrev.start_time then height - DATE_HEIGHT
          else height
        shrinkBack events maxHeight fuel (lp + 1) (height - EVENT_HEIGHT)
      | _ => none
    else some (last, height)

/-- The backward growth (src/widgets/events.rs, lines 258-276): `while
index_to_display < first_visible_index`, prepend the previous event at the
front (charging its header cost when its date differs from the current
front's) and then shrink from the back until the window fits again.
Returns the final `(first, last)`. -/
def growBack (events : List Event) (maxHeight index_to_display : Nat) :
    Nat → Nat → Nat → Nat → Option (Nat × Nat)
  | 0, _, _, _ => none
  | fuel + 1, first, last, height =>
    if index_to_display < first then do
      let ePrev ← events[first - 1]?
      let eCur ← events[first]?
      let first_date := dateNaive ePrev.start_time
      let height :=
        if first_date ≠ dateNaive eCur.start_time then height + DATE_HEIGHT
        else height
      let height := height + EVENT_HEIGHT
      let first := first - 1
      let lh ← shrinkBack events maxHeight (height + 1) last height
      growBack events maxHeight index_to_display fuel first lh.1 lh.2
    else some (first, last)

/-- `Events::get_events_bounds` (src/widgets/events.rs, lines 193-279).
`events` is the visible, time-sorted sequence (passed as `&Vec<&Event>`),
`selected`/`offset` come from `ScheduleState`, `maxHeight` is the drawing
region's row budget.  `none` marks a panic of the Rust code. -/
def get_events_bounds (events : List Event) (selected : Option Nat)
    (offset maxHeight : Nat) : Option (Nat × Nat) := do
  let offset := min offset (events.length - 1)
  let fhl := fillLoop maxHeight (events.drop offset) offset 0 none
  let first := offset
  let index_to_display := selected.getD first
  let flhd ← growSel events maxHeight index_to_display (events.length + 1)
    first fhl.1 fhl.2.1 fhl.2.2
  growBack events maxHeight index_to_display (events.length + 1)
    flhd.1 flhd.2.1 flhd.2.2.1

/-- The mutations `render_ref` (src/widgets/events.rs, lines 288-607)
applies to its `ScheduleState`.  The drawing itself writes only to the
frame buffer; the state is touched in exactly four places: the early
returns on an empty area or an empty inner area (after border layout,
abstracted here by the two flags), `state.selected = None` on an empty
visible sequence (line 387), the clamp of an out-of-range selection to the
last index (lines 392-394), and `state.offset = first_visible_index`
(line 401).  `none` marks a panic inside `get_events_bounds`. -/
def renderStateUpdate (evs : Events) (st : ScheduleState)
    (area_empty inner_empty : Bool) (max_height : Nat) :
    Option ScheduleState :=
  if area_empty then some st
  else if inner_empty then some st
  else
    let events := evs.visibleEvents
    if events.isEmpty then some { st with selected := none }
    else
      let st := if st.selected.any (fun s => events.length ≤ s) then
          st.select (some (events.length - 1))
        else st
      match get_events_bounds events st.selected st.offset max_height with
      | some fl => some { st with offset := fl.1 }
      | none => none

/-! ## Window height accounting (proof support for the viewport analysis)

The invariant of `get_events_bounds` is that `height_from_offset` equals the
rendered height of the current window `[first, last)`: `EVENT_HEIGHT` per
event plus `DATE_HEIGHT` per date group, the leading group included (the
loop charges a header for the first event it meets from a fresh anchor).
These definitions compute that height for a window given as a list. -/

/-- Height of the remainder of a window, `d` being the date of the most
recently charged event: a date header is charged exactly at date changes. -/
def windowHGo (d : Int) : List Event → Nat
  | [] => 0
  | e :: rest =>
    (if dateNaive e.start_time ≠ d then DATE_HEIGHT else 0) + EVENT_HEIGHT +
      windowHGo (dateNaive e.start_time) rest

/-- Rendered height of a window: the first event carries a date header and
its own height, every later event carries a header exactly when its date
differs from its predecessor's. -/
def windowH : List Event → Nat
  | [] => 0
  | e :: rest => DATE_HEIGHT + EVENT_HEIGHT + windowHGo (dateNaive e.start_time) rest

/-- The date the loop's `last_date` variable holds after charging a list of
events on top of a previous date `d`. -/
def lastDateOf (d : Int) : List Event → Int
  | [] => d
  | e :: rest => lastDateOf (dateNaive e.start_time) rest

/-- The window `[f, l)` of an event sequence, as a list. -/
def win (events : List Event) (f l : Nat) : List Event :=
  (events.drop f).take (l - f)

/-- The calendar day of the event at an index (the default event for an
out-of-range index; every use is guarded by a bounds fact). -/
def evDate (events : List Event) (i : Nat) : Int :=
  dateNaive ((events.getD i default).start_time)

/-! # Theorems -/

/-! ## Window height accounting lemmas -/

/-- Appending an event charges its height and a header exactly when its
date differs from the threaded last date. -/
theorem windowHGo_append (e : Event) :
    ∀ (xs : List Event) (d : Int),
    windowHGo d (xs ++ [e]) =
      windowHGo d xs +
        ((if dateNaive e.start_time ≠ lastDateOf d xs then DATE_HEIGHT else 0) +
          EVENT_HEIGHT) := by
  intro xs
  induction xs with
  | nil => intro d; simp [windowHGo, lastDateOf]
  | cons x t ih =>
      intro d
      have hsh : (x :: t) ++ [e] = x :: (t ++ [e]) := rfl
      rw [hsh]
      simp only [windowHGo, lastDateOf]
      rw [ih]
      omega

/-- The threaded last date of a list ending in `e` is `e`'s date. -/
theorem lastDateOf_append (e : Event) :
    ∀ (xs : List Event) (d : Int),
    lastDateOf d (xs ++ [e]) = dateNaive e.start_time := by
  intro xs
  induction xs with
  | nil => intro d; simp [lastDateOf]
  | cons x t ih =>
      intro d
      have hsh : (x :: t) ++ [e] = x :: (t ++ [e]) := rfl
      rw [hsh]
      simp only [lastDateOf]
      exact ih _

/-- The threaded last date of a non-empty list ignores its base. -/
theorem lastDateOf_ne_nil (xs : List Event) (hne : xs ≠ []) (d d' : Int) :
    lastDateOf d xs = lastDateOf d' xs := by
  cases xs with
  | nil => exact absurd rfl hne
  | cons x t => simp only [lastDateOf]

/-- Height of a one-event window. -/
theorem windowH_single (e : Event) :
    windowH [e] = DATE_HEIGHT + EVENT_HEIGHT := by
  simp [windowH, windowHGo]

/-- Growing a non-empty window at the back adds the event height plus a
header exactly when the new event's date differs from the last one's. -/
theorem windowH_append (e x : Event) (t : List Event) :
    windowH (x :: t ++ [e]) =
      windowH (x :: t) +
        ((if dateNaive e.start_time ≠
            lastDateOf (dateNaive x.start_time) t then DATE_HEIGHT else 0) +
          EVENT_HEIGHT) := by
  simp only [windowH, List.cons_append, windowHGo_append]
  omega

/-- Growing a window at the front adds the event height plus a header
exactly when the old front's date differs from the new event's. -/
theorem windowH_cons (e x : Event) (t : List Event) :
    windowH (e :: x :: t) =
      windowH (x :: t) +
        ((if dateNaive x.start_time ≠ dateNaive e.start_time
          then DATE_HEIGHT else 0) + EVENT_HEIGHT) := by
  simp only [windowH, windowHGo]
  split_ifs <;> omega

/-- A window higher than one date header plus one event holds at least two
events. -/
theorem windowH_two_le (w : List Event)
    (h : DATE_HEIGHT + EVENT_HEIGHT < windowH w) : 2 ≤ w.length := by
  match w with
  | [] => simp [windowH, DATE_HEIGHT, EVENT_HEIGHT] at h
  | [e] => rw [windowH_single] at h; omega
  | a :: b :: t => simp

/-! ## Window index lemmas -/

/-- Extending the window by the event at its right end. -/
theorem win_snoc (events : List Event) (f l : Nat) (e : Event)
    (hfl : f ≤ l) (he : events[l]? = some e) :
    win events f (l + 1) = win events f l ++ [e] := by
  unfold win
  have h1 : l + 1 - f = (l - f) + 1 := by omega
  rw [h1, List.take_succ]
  congr 1
  have h2 : (events.drop f)[l - f]? = events[f + (l - f)]? := by
    simp [List.getElem?_drop]
  rw [h2]
  have h3 : f + (l - f) = l := by omega
  rw [h3, he]
  rfl

/-- Extending the window by the event before its left end. -/
theorem win_cons (events : List Event) (f l : Nat) (e : Event)
    (hf : 1 ≤ f) (hfl : f ≤ l) (he : events[f - 1]? = some e) :
    win events (f - 1) l = e :: win events f l := by
  unfold win
  have hlt : f - 1 < events.length := (List.getElem?_eq_some.mp he).1
  rw [List.drop_eq_getElem_cons hlt]
  have h1 : l - (f - 1) = (l - f) + 1 := by omega
  have h2 : events[f - 1] = e := by
    have := List.getElem?_eq_getElem hlt
    rw [this] at he
    exact Option.some.inj he
  have h3 : f - 1 + 1 = f := by omega
  rw [h1, h2, h3, List.take_succ_cons]

/-- Decomposing the window into its front event and the rest. -/
theorem win_front (events : List Event) (f l : Nat) (e : Event)
    (hfl : f < l) (he : events[f]? = some e) :
    win events f l = e :: win events (f + 1) l := by
  have h := win_cons events (f + 1) l e (by omega) (by omega) (by simpa using he)
  simpa using h

/-- Decomposing the window into its body and last event. -/
theorem win_back (events : List Event) (f l : Nat) (e : Event)
    (hfl : f < l) (he : events[l - 1]? = some e) :
    win events f l = win events f (l - 1) ++ [e] := by
  have h := win_snoc events f (l - 1) e (by omega) he
  have h1 : l - 1 + 1 = l := by omega
  rw [h1] at h
  exact h

/-- Length of an in-range window. -/
theorem win_length (events : List Event) (f l : Nat) (hl : l ≤ events.length) :
    (win events f l).length = l - f := by
  unfold win
  simp only [List.length_take, List.length_drop]
  omega

/-- The empty window. -/
theorem win_nil (events : List Event) (f : Nat) : win events f f = [] := by
  unfold win
  simp

/-- The threaded last date of an in-range window is the date of the event
at its right end. -/
theorem lastDateOf_win (events : List Event) (f l : Nat) (b : Int)
    (hfl : f < l) (hl : l ≤ events.length) :
    lastDateOf b (win events f l) = evDate events (l - 1) := by
  have hlt : l - 1 < events.length := by omega
  have he : events[l - 1]? = some events[l - 1] := List.getElem?_eq_getElem hlt
  rw [win_back events f l _ hfl he, lastDateOf_append]
  unfold evDate
  congr 1
  rw [List.getD_eq_getElem?_getD, he]
  rfl

/-- The indexed date agrees with the optional lookup. -/
theorem evDate_eq (events : List Event) (i : Nat) (e : Event)
    (he : events[i]? = some e) :
    evDate events i = dateNaive e.start_time := by
  unfold evDate
  rw [List.getD_eq_getElem?_getD, he]
  rfl

/-- The empty window has height 0. -/
theorem windowH_nil : windowH [] = 0 := rfl

/-- `windowH_append` for an abstract non-empty window. -/
theorem windowH_append_ne_nil (w : List Event) (e : Event) (hw : w ≠ [])
    (b : Int) :
    windowH (w ++ [e]) =
      windowH w +
        ((if dateNaive e.start_time ≠ lastDateOf b w then DATE_HEIGHT else 0) +
          EVENT_HEIGHT) := by
  cases w with
  | nil => exact absurd rfl hw
  | cons x t =>
      rw [windowH_append]
      simp only [lastDateOf]


/-! ## Claim C1: the schedule freshness decision -/

/-- Claim C1: the schedule freshness decision in `get_schedule` is a pure
three-zone function of the cached record's age and content, evaluated in
short-circuit priority order — `get_schedule` returns the cached events
exactly on a `Fresh` verdict and otherwise takes the fetch path, the
verdict factors through `(age, has_invalid_unstarted_event)` as the spec's
three-zone table, and the concrete cases hold: age 4 days is `Stale TooOld`
for any content; age 2 minutes is `Fresh` even with an invalid unstarted
event; age 1 day is `Fresh` without an invalid event and
`Stale ContentInvalid` with one. -/
theorem c1_schedule_freshness_three_zone :
    (∀ now cached_time : Int, ∀ events : List Event,
      ∀ fetchRes : Option NetSchedule,
        get_schedule now (some (events, cached_time)) fetchRes =
          match scheduleVerdict now cached_time events with
          | .Fresh => some (some events)
          | .Stale _ => fetchSchedulePath fetchRes) ∧
    (∀ now cached_time : Int, ∀ events : List Event,
        scheduleVerdict now cached_time events =
          specThreeZone (now - cached_time) (hasInvalidEvent now events)) ∧
    (∀ now : Int, ∀ events : List Event,
        scheduleVerdict now (now - days 4) events = .Stale .TooOld) ∧
    (∀ now : Int, ∀ events : List Event,
        scheduleVerdict now (now - minutes 2) events = .Fresh) ∧
    (∀ now : Int, ∀ events : List Event, hasInvalidEvent now events = false →
        scheduleVerdict now (now - days 1) events = .Fresh) ∧
    (∀ now : Int, ∀ events : List Event, hasInvalidEvent now events = true →
        scheduleVerdict now (now - days 1) events = .Stale .ContentInvalid) := by
  refine ⟨?_, ?_, ?_, ?_, ?_, ?_⟩
  · intro now ct events fetchRes
    simp only [get_schedule, scheduleVerdict]
    split_ifs <;> rfl
  · intro now ct events
    simp only [scheduleVerdict, specThreeZone, days, minutes, minutesPerDay]
    split_ifs <;> first | rfl | (exfalso; omega)
  · intro now events
    simp only [scheduleVerdict, days, minutes, minutesPerDay]
    split_ifs <;> first | rfl | (exfalso; omega)
  · intro now events
    simp only [scheduleVerdict, days, minutes, minutesPerDay]
    split_ifs <;> first | rfl | (exfalso; omega)
  · intro now events h
    simp only [scheduleVerdict, days, minutes, minutesPerDay]
    split_ifs <;> first | rfl | (exfalso; omega) | simp_all
  · intro now events h
    simp only [scheduleVerdict, days, minutes, minutesPerDay]
    split_ifs <;> first | rfl | simp_all

/-- Witness for C1, at concrete inputs: a cache of age 1 day whose single
event is unstarted with a past start time is judged `Stale ContentInvalid`
and `get_schedule` takes the fetch path (returning the clean absence when
the fetch fails), and an empty cache of age 1 day is judged `Fresh`. -/
theorem c1_schedule_freshness_three_zone_witness :
    scheduleVerdict 2880 (2880 - days 1)
        [⟨0, "", "", ⟨.Unknown "", 0⟩, .Unstarted "Unstarted", none, []⟩] =
      .Stale .ContentInvalid ∧
    get_schedule 2880 (some ([⟨0, "", "", ⟨.Unknown "", 0⟩,
        .Unstarted "Unstarted", none, []⟩], 2880 - days 1)) none = some none ∧
    scheduleVerdict 2880 (2880 - days 1) [] = .Fresh := by
  have h := c1_schedule_freshness_three_zone
  refine ⟨h.2.2.2.2.2 2880
      [⟨0, "", "", ⟨.Unknown "", 0⟩, .Unstarted "Unstarted", none, []⟩]
      (by decide), ?_, h.2.2.2.2.1 2880 [] (by decide)⟩
  have h2 := h.1 2880 (2880 - days 1)
      [⟨0, "", "", ⟨.Unknown "", 0⟩, .Unstarted "Unstarted", none, []⟩] none
  rw [h2, h.2.2.2.2.2 2880
      [⟨0, "", "", ⟨.Unknown "", 0⟩, .Unstarted "Unstarted", none, []⟩]
      (by decide)]
  rfl

/-! ## Claim C9: leagues freshness threshold -/

/-- Counterexample to C9 as stated: at an age of exactly 7 days the claim
demands `Stale(TooOld)` and a remote fetch, so with a failing fetch the
call would have to return `None`; the code's check is strict
(`cached_time < now - 7 days`), so it returns the cached list instead. -/
theorem c9_counterexample :
    (10080 : Int) - 0 = days 7 ∧
    get_leagues 10080 (some ([⟨"LCK", "KOREA", "98767991310872058", false⟩], 0))
        none =
      some [⟨"LCK", "KOREA", "98767991310872058", false⟩] ∧
    fetchLeaguesPath none = none := by
  refine ⟨by decide, ?_, rfl⟩
  simp [get_leagues, days, minutesPerDay]

/-- Claim C9 amended: for every cached leagues record, `get_leagues`
returns the cached list without fetching exactly when the record's age is
at most 7 days (the fetch result is irrelevant); when the age is strictly
more than 7 days the record is stale and the call reduces to the remote
fetch path. -/
theorem c9_leagues_freshness (now cached_time : Int) (leagues : List League)
    (fetchRes : Option (List NetLeague)) :
    (now - cached_time ≤ days 7 →
      get_leagues now (some (leagues, cached_time)) fetchRes = some leagues) ∧
    (days 7 < now - cached_time →
      get_leagues now (some (leagues, cached_time)) fetchRes =
        fetchLeaguesPath fetchRes) := by
  simp only [get_leagues, days, minutesPerDay]
  constructor
  · intro h
    rw [if_neg (by omega)]
  · intro h
    rw [if_pos (by omega)]

/-- Witness for C9 amended: a record of age exactly 7 days is returned from
the cache, one of age 7 days plus a minute falls through to the fetch path
(here a failing fetch, hence `none`). -/
theorem c9_leagues_freshness_witness :
    get_leagues 10080 (some ([⟨"LCK", "KOREA", "98767991310872058", false⟩], 0))
        none =
      some [⟨"LCK", "KOREA", "98767991310872058", false⟩] ∧
    get_leagues 10081 (some ([⟨"LCK", "KOREA", "98767991310872058", false⟩], 0))
        none = none :=
  ⟨(c9_leagues_freshness 10080 0 [⟨"LCK", "KOREA", "98767991310872058", false⟩]
      none).1 (by decide),
   (c9_leagues_freshness 10081 0 [⟨"LCK", "KOREA", "98767991310872058", false⟩]
      none).2 (by decide)⟩

/-! ## Claim C6: no stale fallback, failures indistinguishable -/

/-- Claim C6: whenever the cached record is absent or corrupt (both reduce
to a failed cache load) or judged stale, and the remote fetch then fails,
`get_leagues` and `get_schedule` return the clean absence — the cached
value is never returned as a fallback, and the caller cannot distinguish a
missing cache, a corrupt cache, or a failed fetch, all three producing the
same `none`. -/
theorem c6_no_stale_fallback :
    (∀ now : Int, get_leagues now none none = none) ∧
    (∀ now cached_time : Int, ∀ leagues : List League,
        days 7 < now - cached_time →
        get_leagues now (some (leagues, cached_time)) none = none) ∧
    (∀ now : Int, get_schedule now none none = some none) ∧
    (∀ now cached_time : Int, ∀ events : List Event, ∀ r : StaleReason,
        scheduleVerdict now cached_time events = .Stale r →
        get_schedule now (some (events, cached_time)) none = some none) := by
  refine ⟨fun now => rfl, ?_, fun now => rfl, ?_⟩
  · intro now ct leagues h
    simp only [get_leagues, days, minutesPerDay] at *
    rw [if_pos (by omega)]
    rfl
  · intro now ct events r h
    simp only [get_schedule, scheduleVerdict] at *
    split_ifs at h ⊢ <;> simp_all [fetchSchedulePath]

/-- Witness for C6: a stale-by-age leagues record with a failed fetch
yields `none`, and a stale-by-content schedule record (an unstarted event
in the past, age 1 day) with a failed fetch yields the clean absence. -/
theorem c6_no_stale_fallback_witness :
    get_leagues 20000 (some ([⟨"LCK", "KOREA", "98767991310872058", false⟩], 0))
        none = none ∧
    get_schedule 1440 (some ([⟨0, "", "", ⟨.Unknown "", 0⟩,
        .Unstarted "Unstarted", none, []⟩], 0)) none = some none :=
  ⟨c6_no_stale_fallback.2.1 20000 0 [⟨"LCK", "KOREA", "98767991310872058", false⟩]
      (by decide),
   c6_no_stale_fallback.2.2.2 1440 0
      [⟨0, "", "", ⟨.Unknown "", 0⟩, .Unstarted "Unstarted", none, []⟩]
      .ContentInvalid (by decide)⟩

/-! ## Claim C10: select_today on an empty visible sequence -/

/-- Claim C10: if the visible event sequence (the union of event lists over
the active league ids) is empty, `select_today` leaves the entire
`ScheduleState` unchanged — `selected` and `offset` keep their previous
values. -/
theorem c10_select_today_empty_noop (st : ScheduleState) (events : Events)
    (today : Int) (h : events.visibleEvents = []) :
    st.select_today events today = st := by
  simp [ScheduleState.select_today, h]

/-- Witness for C10: an index holding one league's events, none of them
active, has an empty visible sequence, and `select_today` leaves a state
with a stale `selected` and `offset` untouched. -/
theorem c10_select_today_empty_noop_witness :
    ScheduleState.select_today ⟨true, false, false, 7, some 3⟩
        ⟨[], [("LCK", [⟨0, "", "", ⟨.Unknown "", 0⟩, .Unknown "", none, []⟩])]⟩
        500 =
      ⟨true, false, false, 7, some 3⟩ :=
  c10_select_today_empty_noop ⟨true, false, false, 7, some 3⟩
    ⟨[], [("LCK", [⟨0, "", "", ⟨.Unknown "", 0⟩, .Unknown "", none, []⟩])]⟩
    500 (by simp [Events.visibleEvents])

/-! ## Claim C8: active-set idempotence and toggle involution -/

/-- Claim C8: `set_active x` twice in a row equals `set_active x` once;
`unset_active x` when `x` is not in the active set leaves the state
unchanged; and the league toggle (`Leagues::select`) applied twice at the
same index restores that league's original `selected` flag. -/
theorem c8_active_set_idempotence :
    (∀ evs : Events, ∀ x : String,
        (evs.set_active x).set_active x = evs.set_active x) ∧
    (∀ evs : Events, ∀ x : String, x ∉ evs.active →
        evs.unset_active x = evs) ∧
    (∀ lgs : Leagues, ∀ i : Nat,
        (((lgs.select (some i)).1).select (some i)).1.leagues[i]?.map
            League.selected =
          lgs.leagues[i]?.map League.selected) := by
  refine ⟨?_, ?_, ?_⟩
  · intro evs x
    by_cases h : x ∈ evs.active
    · simp [Events.set_active, h]
    · simp [Events.set_active, h]
  · intro evs x h
    have hnone : evs.active.findIdx? (fun y => y == x) = none := by
      rw [List.findIdx?_eq_none_iff]
      intro y hy
      simp only [beq_eq_false_iff_ne]
      exact fun hEq => h (hEq ▸ hy)
    simp [Events.unset_active, hnone]
  · intro lgs i
    cases h : lgs.leagues[i]? with
    | none =>
        simp [Leagues.select, h]
    | some league =>
        have hlt : i < lgs.leagues.length := by
          by_contra hge
          rw [List.getElem?_eq_none (by omega)] at h
          exact Option.noConfusion h
        simp only [Leagues.select, h, List.getElem?_set_self
          (by simpa using hlt), List.set_set]
        simp [h, Bool.not_not]

/-- Witness for C8: the `unset_active` no-op and the toggle restoration at
a concrete index and league. -/
theorem c8_active_set_idempotence_witness :
    Events.unset_active ⟨["LEC"], []⟩ "LCK" = ⟨["LEC"], []⟩ ∧
    ((Leagues.select (Leagues.select ⟨[⟨"LCK", "KOREA", "1", true⟩]⟩
          (some 0)).1 (some 0)).1.leagues[0]?.map League.selected =
      some true) :=
  ⟨c8_active_set_idempotence.2.1 ⟨["LEC"], []⟩ "LCK" (by decide),
   by rw [c8_active_set_idempotence.2.2 ⟨[⟨"LCK", "KOREA", "1", true⟩]⟩ 0]; rfl⟩

/-! ## Claim C7: render over an empty visible sequence -/

/-- Counterexample to C7 as stated: a render pass over an empty visible
sequence sets `selected = None` directly (without going through
`select(None)`), so a prior `offset = 5` survives where the claim demands
`offset = 0`. -/
theorem c7_counterexample :
    renderStateUpdate ⟨[], []⟩ ⟨false, false, false, 5, some 3⟩ false false 10 =
      some ⟨false, false, false, 5, none⟩ ∧ (5 : Nat) ≠ 0 := by
  refine ⟨?_, by decide⟩
  simp [renderStateUpdate, Events.visibleEvents]

/-- Claim C7 amended: after a render pass over a non-empty drawing area in
which the visible event sequence is empty, `selected = None` while `offset`
retains its prior value — the assignment at line 387 bypasses
`select(None)`, which is the operation that would also have reset `offset`
to 0. -/
theorem c7_empty_render_clears_selection (evs : Events) (st : ScheduleState)
    (mh : Nat) (h : evs.visibleEvents = []) :
    renderStateUpdate evs st false false mh = some { st with selected := none } ∧
    st.select none = { st with selected := none, offset := 0 } := by
  constructor
  · simp [renderStateUpdate, h]
  · simp [ScheduleState.select]

/-- Witness for C7 amended: a state with `offset = 5` keeps it through an
empty render while the selection is cleared, and an explicit
`select(None)` on the same state would have zeroed the offset. -/
theorem c7_empty_render_clears_selection_witness :
    renderStateUpdate ⟨["LCK"], []⟩ ⟨true, false, false, 5, some 2⟩ false false 8 =
      some ⟨true, false, false, 5, none⟩ ∧
    ScheduleState.select ⟨true, false, false, 5, some 2⟩ none =
      ⟨true, false, false, 0, none⟩ :=
  c7_empty_render_clears_selection ⟨["LCK"], []⟩ ⟨true, false, false, 5, some 2⟩
    8 (by simp [Events.visibleEvents])

/-! ## Claim C5: scroll saturation -/

/-- Counterexample to C5 as stated: `scroll_down_by` itself does not
saturate at the last index of the visible sequence — on a state selecting
index 0, `scroll_down_by 5` yields `Some 5` even though a one-event
visible sequence has last index 0. -/
theorem c5_counterexample :
    (ScheduleState.scroll_down_by ⟨false, false, false, 0, some 0⟩ 5).selected =
      some 5 ∧
    (⟨["LCK"], [("LCK", [⟨0, "", "", ⟨.Unknown "", 0⟩, .Unknown "", none,
        []⟩])]⟩ : Events).visibleEvents.length = 1 ∧
    (5 : Nat) ≠ 1 - 1 := by
  refine ⟨?_, ?_, by decide⟩
  · simp only [ScheduleState.scroll_down_by, saturatingAdd, USIZE_MAX]
    norm_num
  · simp [Events.visibleEvents, List.mergeSort]

/-- Claim C5 amended: if `selected` is `None`, `scroll_up_by(n)` and
`scroll_down_by(n)` each set `selected` to `Some(offset)`; if `selected`
is `Some(i)`, `scroll_up_by(n)` sets it to `Some(i − n)` saturated below
at 0, while `scroll_down_by(n)` sets it to `Some(i + n)` saturated only at
`usize::MAX` — the saturation at the last index of the visible sequence is
applied by the next render pass, which clamps an out-of-bounds selection
to `len − 1`, so after `scroll_down_by(n)` followed by a completed render
over a non-empty visible sequence the selection is `min(i + n, len − 1)`,
with no wraparound in either direction. -/
theorem c5_scroll_saturation :
    (∀ st : ScheduleState, ∀ n : Nat, st.selected = none →
        (st.scroll_up_by n).selected = some st.offset ∧
        (st.scroll_down_by n).selected = some st.offset) ∧
    (∀ st : ScheduleState, ∀ i n : Nat, st.selected = some i →
        (st.scroll_up_by n).selected = some (i - n)) ∧
    (∀ st : ScheduleState, ∀ i n : Nat, st.selected = some i →
        (st.scroll_down_by n).selected = some (saturatingAdd i n)) ∧
    (∀ evs : Events, ∀ st st' : ScheduleState, ∀ i n mh : Nat,
        st.selected = some i →
        evs.visibleEvents ≠ [] →
        evs.visibleEvents.length ≤ USIZE_MAX →
        renderStateUpdate evs (st.scroll_down_by n) false false mh = some st' →
        st'.selected = some (min (i + n) (evs.visibleEvents.length - 1))) := by
  refine ⟨?_, ?_, ?_, ?_⟩
  · intro st n h
    constructor <;> simp [ScheduleState.scroll_up_by,
      ScheduleState.scroll_down_by, h]
  · intro st i n h
    simp [ScheduleState.scroll_up_by, h]
  · intro st i n h
    simp [ScheduleState.scroll_down_by, h]
  · intro evs st st' i n mh hsel hne hlen hrender
    have hlenpos : 0 < evs.visibleEvents.length := List.length_pos.mpr hne
    have hdown : st.scroll_down_by n =
        { st with selected := some (saturatingAdd i n) } := by
      simp [ScheduleState.scroll_down_by, hsel]
    rw [hdown] at hrender
    simp only [renderStateUpdate, List.isEmpty_iff, hne, if_false,
      Bool.false_eq_true, Option.any_some, ScheduleState.select,
      Option.isNone_some] at hrender
    simp only [USIZE_MAX] at hlen
    by_cases hcl : evs.visibleEvents.length ≤ saturatingAdd i n
    · rw [if_pos (by simpa using hcl)] at hrender
      have hmin : min (i + n) (evs.visibleEvents.length - 1) =
          evs.visibleEvents.length - 1 := by
        simp only [saturatingAdd, USIZE_MAX, Nat.min_def] at hcl ⊢
        split_ifs at hcl ⊢ <;> omega
      simp only [if_neg (by simp : ¬ (false = true))] at hrender
      cases hb : get_events_bounds evs.visibleEvents
          (some (evs.visibleEvents.length - 1))
          st.offset mh with
      | none => rw [hb] at hrender; exact absurd hrender (by simp)
      | some fl =>
          rw [hb] at hrender
          simp only [Option.some.injEq] at hrender
          rw [← hrender, hmin]
    · rw [if_neg (by simpa using hcl)] at hrender
      have hval : saturatingAdd i n = i + n := by
        simp only [saturatingAdd, USIZE_MAX, Nat.min_def] at hcl ⊢
        split_ifs at hcl ⊢ <;> omega
      have hmin : min (i + n) (evs.visibleEvents.length - 1) = i + n := by
        rw [hval] at hcl
        simp only [Nat.min_def]
        split_ifs <;> omega
      cases hb : get_events_bounds evs.visibleEvents (some (saturatingAdd i n))
          st.offset mh with
      | none => rw [hb] at hrender; exact absurd hrender (by simp)
      | some fl =>
          rw [hb] at hrender
          simp only [Option.some.injEq] at hrender
          rw [← hrender, hmin, hval]

/-- Witness for C5 amended: on a state selecting index 0 of a one-event
sequence, `scroll_down_by 5` overshoots to `Some 5` and the following
render pass clamps the selection to the last index 0; the other scroll
behaviours at concrete states. -/
theorem c5_scroll_saturation_witness :
    (ScheduleState.scroll_up_by ⟨false, false, false, 4, none⟩ 3).selected =
      some 4 ∧
    (ScheduleState.scroll_up_by ⟨false, false, false, 0, some 2⟩ 7).selected =
      some 0 ∧
    (⟨false, false, false, 0, some 0⟩ : ScheduleState).selected =
      some (min (0 + 5)
        ((⟨["LCK"], [("LCK", [⟨0, "", "", ⟨.Unknown "", 0⟩, .Unknown "", none,
          []⟩])]⟩ : Events).visibleEvents.length - 1)) := by
  have hv : (⟨["LCK"], [("LCK", [⟨0, "", "", ⟨.Unknown "", 0⟩, .Unknown "",
      none, []⟩])]⟩ : Events).visibleEvents =
      [⟨0, "", "", ⟨.Unknown "", 0⟩, .Unknown "", none, []⟩] := by
    simp [Events.visibleEvents, List.mergeSort]
  refine ⟨(c5_scroll_saturation.1 ⟨false, false, false, 4, none⟩ 3 rfl).1,
    ?_, ?_⟩
  · rw [c5_scroll_saturation.2.1 ⟨false, false, false, 0, some 2⟩ 2 7 rfl]
  · refine c5_scroll_saturation.2.2.2
      ⟨["LCK"], [("LCK", [⟨0, "", "", ⟨.Unknown "", 0⟩, .Unknown "", none,
        []⟩])]⟩
      ⟨false, false, false, 0, some 0⟩ ⟨false, false, false, 0, some 0⟩
      0 5 10 rfl (by rw [hv]; exact List.cons_ne_nil _ _)
      (by rw [hv]; decide) ?_
    have hdown : ScheduleState.scroll_down_by ⟨false, false, false, 0, some 0⟩
        5 = ⟨false, false, false, 0, some 5⟩ := by
      simp [ScheduleState.scroll_down_by, saturatingAdd, USIZE_MAX]
    rw [hdown]
    simp only [renderStateUpdate, hv]
    decide

/-! ## Claim C4: select_today -/

/-- Characterization of `List.findIdx?` on success: the found index holds
the first element satisfying the predicate. -/
theorem findIdx?_first {α : Type} (p : α → Bool) (l : List α) (i : Nat)
    (h : List.findIdx? p l = some i) :
    ∃ e, l[i]? = some e ∧ p e = true ∧
      ∀ j, j < i → ∀ e', l[j]? = some e' → p e' = false := by
  induction l generalizing i with
  | nil => simp [List.findIdx?] at h
  | cons x xs ih =>
    rw [List.findIdx?_cons] at h
    by_cases hp : p x
    · rw [if_pos hp] at h
      cases h
      exact ⟨x, by simp, hp, fun j hj => absurd hj (Nat.not_lt_zero j)⟩
    · rw [if_neg hp, List.findIdx?_succ] at h
      cases hfind : List.findIdx? p xs with
      | none => rw [hfind] at h; exact absurd h (by simp)
      | some k =>
        rw [hfind] at h
        simp only [Option.map_some', Option.some.injEq] at h
        obtain ⟨e, he, hpe, hprev⟩ := ih k hfind
        refine ⟨e, ?_, hpe, ?_⟩
        · rw [← h, List.getElem?_cons_succ]
          exact he
        · intro j hj e' he'
          match j with
          | 0 =>
            simp only [List.getElem?_cons_zero, Option.some.injEq] at he'
            rw [← he']
            exact eq_false_of_ne_true hp
          | jp + 1 =>
            refine hprev jp (by omega) e' ?_
            simpa using he'

/-- Claim C4: for every non-empty visible event sequence, `select_today`
sets `selected` to the first index whose event has `start_time ≥ now` or
state `InProgress`, or to the last index when no event qualifies, and sets
`offset` equal to the selected index. -/
theorem c4_select_today_first_upcoming (st : ScheduleState) (events : Events)
    (today : Int) (hne : events.visibleEvents ≠ []) :
    ∃ i, (st.select_today events today).selected = some i ∧
      (st.select_today events today).offset = i ∧
      ((∃ e, events.visibleEvents[i]? = some e ∧
          (today ≤ e.start_time ∨ e.state.isInProgress = true) ∧
          ∀ j, j < i → ∀ e', events.visibleEvents[j]? = some e' →
            ¬(today ≤ e'.start_time ∨ e'.state.isInProgress = true)) ∨
        (i = events.visibleEvents.length - 1 ∧
          ∀ e' ∈ events.visibleEvents,
            ¬(today ≤ e'.start_time ∨ e'.state.isInProgress = true))) := by
  simp only [ScheduleState.select_today]
  rw [if_neg (by simpa [List.isEmpty_iff] using hne)]
  cases hfind : events.visibleEvents.findIdx?
      (fun e => decide (today ≤ e.start_time) || e.state.isInProgress) with
  | some k =>
    refine ⟨k, by simp, by simp, Or.inl ?_⟩
    obtain ⟨e, he, hpe, hprev⟩ := findIdx?_first _ _ _ hfind
    refine ⟨e, he, by simpa using hpe, ?_⟩
    intro j hj e' he'
    have := hprev j hj e' he'
    simpa using this
  | none =>
    refine ⟨events.visibleEvents.length - 1, by simp, by simp, Or.inr ?_⟩
    refine ⟨rfl, ?_⟩
    intro e' he'
    have := List.findIdx?_eq_none_iff.mp hfind e' he'
    simpa using this

/-- Witness for C4, on the spec's concrete scenarios: events at Day 1
10:00 (Completed), Day 1 14:00 (Completed), Day 2 09:00 (Unstarted) with
now = Day 2 08:00 select index 2; an all-completed pair with now after the
last event selects the last index 1. -/
theorem c4_select_today_first_upcoming_witness :
    (ScheduleState.select_today ⟨false, false, false, 0, none⟩
        ⟨["X"], [("X",
          [⟨600, "", "", ⟨.Unknown "", 0⟩, .Completed "Completed", none, []⟩,
           ⟨840, "", "", ⟨.Unknown "", 0⟩, .Completed "Completed", none, []⟩,
           ⟨1980, "", "", ⟨.Unknown "", 0⟩, .Unstarted "Unstarted", none,
             []⟩])]⟩ 1920).selected = some 2 ∧
    (ScheduleState.select_today ⟨false, false, false, 0, none⟩
        ⟨["X"], [("X",
          [⟨600, "", "", ⟨.Unknown "", 0⟩, .Completed "Completed", none, []⟩,
           ⟨840, "", "", ⟨.Unknown "", 0⟩, .Completed "Completed", none, []⟩,
           ⟨1980, "", "", ⟨.Unknown "", 0⟩, .Unstarted "Unstarted", none,
             []⟩])]⟩ 1920).offset = 2 ∧
    (ScheduleState.select_today ⟨false, false, false, 0, none⟩
        ⟨["X"], [("X",
          [⟨600, "", "", ⟨.Unknown "", 0⟩, .Completed "Completed", none, []⟩,
           ⟨840, "", "", ⟨.Unknown "", 0⟩, .Completed "Completed", none,
             []⟩])]⟩ 3000).selected = some 1 ∧
    (∃ i, (ScheduleState.select_today ⟨false, false, false, 0, none⟩
        ⟨["X"], [("X",
          [⟨600, "", "", ⟨.Unknown "", 0⟩, .Completed "Completed", none, []⟩,
           ⟨840, "", "", ⟨.Unknown "", 0⟩, .Completed "Completed", none, []⟩,
           ⟨1980, "", "", ⟨.Unknown "", 0⟩, .Unstarted "Unstarted", none,
             []⟩])]⟩ 1920).selected = some i) := by
  have hv3 : (⟨["X"], [("X",
      [⟨600, "", "", ⟨.Unknown "", 0⟩, .Completed "Completed", none, []⟩,
       ⟨840, "", "", ⟨.Unknown "", 0⟩, .Completed "Completed", none, []⟩,
       ⟨1980, "", "", ⟨.Unknown "", 0⟩, .Unstarted "Unstarted", none,
         []⟩])]⟩ : Events).visibleEvents =
      [⟨600, "", "", ⟨.Unknown "", 0⟩, .Completed "Completed", none, []⟩,
       ⟨840, "", "", ⟨.Unknown "", 0⟩, .Completed "Completed", none, []⟩,
       ⟨1980, "", "", ⟨.Unknown "", 0⟩, .Unstarted "Unstarted", none, []⟩] := by
    simp [Events.visibleEvents, List.mergeSort]
  have hv2 : (⟨["X"], [("X",
      [⟨600, "", "", ⟨.Unknown "", 0⟩, .Completed "Completed", none, []⟩,
       ⟨840, "", "", ⟨.Unknown "", 0⟩, .Completed "Completed", none,
         []⟩])]⟩ : Events).visibleEvents =
      [⟨600, "", "", ⟨.Unknown "", 0⟩, .Completed "Completed", none, []⟩,
       ⟨840, "", "", ⟨.Unknown "", 0⟩, .Completed "Completed", none, []⟩] := by
    simp [Events.visibleEvents, List.mergeSort]
  refine ⟨?_, ?_, ?_, ?_⟩
  · simp only [ScheduleState.select_today, hv3]; decide
  · simp only [ScheduleState.select_today, hv3]; decide
  · simp only [ScheduleState.select_today, hv2]; decide
  · obtain ⟨i, hi, _⟩ := c4_select_today_first_upcoming
      ⟨false, false, false, 0, none⟩
      ⟨["X"], [("X",
        [⟨600, "", "", ⟨.Unknown "", 0⟩, .Completed "Completed", none, []⟩,
         ⟨840, "", "", ⟨.Unknown "", 0⟩, .Completed "Completed", none, []⟩,
         ⟨1980, "", "", ⟨.Unknown "", 0⟩, .Unstarted "Unstarted", none,
           []⟩])]⟩ 1920 (by rw [hv3]; exact List.cons_ne_nil _ _)
    exact ⟨i, hi⟩

/-! ## The forward fill -/

/-- Invariant of the forward fill: starting from a window `[offset, last)`
whose height and threaded date are correctly accounted and that fits the
budget, the loop yields a larger window with the same properties. -/
theorem fillLoop_inv (events : List Event) (maxHeight offset : Nat) :
    ∀ (rest : List Event) (last height : Nat) (lastDate : Option Int),
      rest = events.drop last →
      offset ≤ last → last ≤ events.length →
      height = windowH (win events offset last) →
      height ≤ maxHeight →
      lastDate = (if last = offset then none
        else some (evDate events (last - 1))) →
      ∃ l2 h2 ld2,
        fillLoop maxHeight rest last height lastDate = (l2, h2, ld2) ∧
        last ≤ l2 ∧ l2 ≤ events.length ∧
        h2 = windowH (win events offset l2) ∧ h2 ≤ maxHeight ∧
        ld2 = (if l2 = offset then none else some (evDate events (l2 - 1))) := by
  intro rest
  induction rest with
  | nil =>
      intro last height lastDate hrest hol hll hh hhm hld
      exact ⟨last, height, lastDate, rfl, le_refl last, hll, hh, hhm, hld⟩
  | cons e rest' ih =>
      intro last height lastDate hrest hol hll hh hhm hld
      have hlt : last < events.length := by
        by_contra hge
        rw [List.drop_eq_nil_of_le (by omega)] at hrest
        exact List.noConfusion hrest
      have he : events[last]? = some e := by
        have h0 : (events.drop last)[0]? = events[last + 0]? :=
          List.getElem?_drop events last 0
        rw [← hrest] at h0
        simpa using h0.symm
      have hrest' : rest' = events.drop (last + 1) := by
        have ht : (events.drop last).tail = events.drop (last + 1) :=
          List.tail_drop events last
        rw [← ht, ← hrest]
        rfl
      have hwin : win events offset (last + 1) = win events offset last ++ [e] :=
        win_snoc events offset last e hol he
      have hev : evDate events last = dateNaive e.start_time := evDate_eq _ _ _ he
      simp only [fillLoop]
      split_ifs with h1 h2 h3
      · exact ⟨last, height, lastDate, rfl, le_refl last, hll, hh, hhm, hld⟩
      · exact ⟨last, height, lastDate, rfl, le_refl last, hll, hh, hhm, hld⟩
      · -- new date and it fits: recurse with the header charged
        have hnewh : windowH (win events offset (last + 1)) =
            height + DATE_HEIGHT + EVENT_HEIGHT := by
          by_cases heq : offset = last
          · have hwnil : win events offset last = [] := by
              rw [heq]
              exact win_nil events last
            have hh0 : height = 0 := by rw [hh, hwnil, windowH_nil]
            rw [hwin, hwnil, List.nil_append, windowH_single, hh0]
            omega
          · have holt : offset < last := by omega
            have hwne : win events offset last ≠ [] := by
              have hl := win_length events offset last (by omega)
              intro hnil
              rw [hnil] at hl
              simp at hl
              omega
            rw [hwin, windowH_append_ne_nil _ _ hwne 0,
              lastDateOf_win events offset last 0 holt (by omega)]
            rw [if_neg (by omega : ¬ last = offset)] at hld
            rw [if_pos ?hcond]
            · rw [hh]
              omega
            case hcond =>
              rw [hld] at h2
              intro hcon
              exact h2 (by rw [hcon])
        obtain ⟨l2, h2', ld2, heqrec, hge, hle, hwh, hhm2, hld2⟩ :=
          ih (last + 1) (height + DATE_HEIGHT + EVENT_HEIGHT)
            (some (dateNaive e.start_time)) hrest' (by omega) (by omega)
            hnewh.symm (by omega)
            (by
              rw [if_neg (by omega : ¬ last + 1 = offset)]
              simp only [Nat.add_sub_cancel]
              rw [hev])
        exact ⟨l2, h2', ld2, heqrec, by omega, hle, hwh, hhm2, hld2⟩
      · -- same date: recurse without a header
        have hsame : some (dateNaive e.start_time) = lastDate := by
          by_contra hcon
          exact h2 hcon
        have holt : offset < last := by
          by_contra hcon
          have heq : last = offset := by omega
          rw [if_pos heq] at hld
          rw [hld] at hsame
          exact Option.noConfusion hsame
        have hwne : win events offset last ≠ [] := by
          have hl := win_length events offset last (by omega)
          intro hnil
          rw [hnil] at hl
          simp at hl
          omega
        have hdeq : dateNaive e.start_time = evDate events (last - 1) := by
          rw [if_neg (by omega : ¬ last = offset)] at hld
          rw [hld] at hsame
          exact Option.some.inj hsame
        have hnewh : windowH (win events offset (last + 1)) =
            height + EVENT_HEIGHT := by
          rw [hwin, windowH_append_ne_nil _ _ hwne 0,
            lastDateOf_win events offset last 0 holt (by omega)]
          rw [if_neg (by simpa using hdeq)]
          rw [hh]
          omega
        obtain ⟨l2, h2', ld2, heqrec, hge, hle, hwh, hhm2, hld2⟩ :=
          ih (last + 1) (height + EVENT_HEIGHT) lastDate hrest' (by omega)
            (by omega) hnewh.symm (by omega)
            (by
              rw [if_neg (by omega : ¬ last + 1 = offset)]
              simp only [Nat.add_sub_cancel]
              rw [if_neg (by omega : ¬ last = offset)] at hld
              rw [hld, hev, ← hdeq])
        exact ⟨l2, h2', ld2, heqrec, by omega, hle, hwh, hhm2, hld2⟩

/-- Post-condition of the forward fill as called by `get_events_bounds`:
with a budget of at least one date header plus one event, it produces a
non-empty fitting window anchored at the clamped offset. -/
theorem fillLoop_post (events : List Event) (maxHeight offset : Nat)
    (hm : DATE_HEIGHT + EVENT_HEIGHT <= maxHeight) (ho : offset < events.length) :
    ∃ l2 h2,
      fillLoop maxHeight (events.drop offset) offset 0 none =
        (l2, h2, some (evDate events (l2 - 1))) ∧
      offset < l2 ∧ l2 <= events.length ∧
      h2 = windowH (win events offset l2) ∧ h2 <= maxHeight := by
  have hdrop : events.drop offset = events[offset] :: events.drop (offset + 1) :=
    List.drop_eq_getElem_cons ho
  have he : events[offset]? = some events[offset] := List.getElem?_eq_getElem ho
  have hwin1 : win events offset (offset + 1) = [events[offset]] := by
    have h := win_snoc events offset offset events[offset] (le_refl offset) he
    rw [win_nil] at h
    simpa using h
  rw [hdrop]
  simp only [fillLoop]
  split_ifs with h1 h2 h3
  · exfalso
    simp only [DATE_HEIGHT, EVENT_HEIGHT] at hm h1
    omega
  · exfalso
    simp only [DATE_HEIGHT, EVENT_HEIGHT] at hm h3
    omega
  · obtain ⟨l2, h2', ld2, heqrec, hge, hle, hwh, hhm2, hld2⟩ :=
      fillLoop_inv events maxHeight offset (events.drop (offset + 1))
        (offset + 1) (0 + DATE_HEIGHT + EVENT_HEIGHT)
        (some (dateNaive events[offset].start_time)) rfl (by omega) (by omega)
        (by rw [hwin1, windowH_single]; omega) (by omega)
        (by
          rw [if_neg (by omega : ¬ offset + 1 = offset)]
          simp only [Nat.add_sub_cancel]
          rw [evDate_eq events offset events[offset] he])
    refine ⟨l2, h2', ?_, by omega, hle, hwh, hhm2⟩
    rw [heqrec, hld2, if_neg (by omega : ¬ l2 = offset)]
  · exfalso
    exact h2 (by simp)

/-- The front shrink terminates within its height budget of fuel, never
drops the window below one event, and restores a fitting window with the
height correctly accounted. -/
theorem shrinkFront_spec (events : List Event) (maxHeight : Nat)
    (hm : DATE_HEIGHT + EVENT_HEIGHT <= maxHeight) :
    ∀ (fuel : Nat) (first last height : Nat),
      height < fuel →
      first < last → last <= events.length →
      height = windowH (win events first last) →
      ∃ f2 h2,
        shrinkFront events maxHeight fuel first last height = some (f2, h2) ∧
        first <= f2 ∧ f2 < last ∧
        h2 = windowH (win events f2 last) ∧ h2 <= maxHeight := by
  intro fuel
  induction fuel with
  | zero =>
      intro first last height hfuel
      omega
  | succ fuel ih =>
      intro first last height hfuel hfl hll hh
      simp only [shrinkFront]
      split_ifs with h1 hc
      · -- height > maxHeight: one shrink step
        have hlen2 : 2 <= last - first := by
          have h2l := windowH_two_le (win events first last)
            (by
              rw [← hh]
              simp only [DATE_HEIGHT, EVENT_HEIGHT] at hm ⊢
              omega)
          rw [win_length events first last hll] at h2l
          exact h2l
        have hf1 : first < events.length := by omega
        have hf2 : first + 1 < events.length := by omega
        have he1 : events[first]? = some events[first] := List.getElem?_eq_getElem hf1
        have he2 : events[first + 1]? = some events[first + 1] :=
          List.getElem?_eq_getElem hf2
        have hw1 : win events first last = events[first] :: win events (first + 1) last :=
          win_front events first last events[first] hfl he1
        have hw2 : win events (first + 1) last =
            events[first + 1] :: win events (first + 2) last :=
          win_front events (first + 1) last events[first + 1] (by omega) he2
        have hcons : windowH (win events first last) =
            windowH (win events (first + 1) last) +
              ((if dateNaive events[first + 1].start_time ≠
                  dateNaive events[first].start_time
                then DATE_HEIGHT else 0) + EVENT_HEIGHT) := by
          rw [hw1, hw2, windowH_cons, ← hw2]
        rw [he1, he2]
        simp only [Option.map_some', Option.bind_eq_bind, Option.some_bind]
        have harg :
            ((if some (dateNaive events[first].start_time) ≠
                some (dateNaive events[first + 1].start_time)
              then height - DATE_HEIGHT else height) - EVENT_HEIGHT) =
            windowH (win events (first + 1) last) := by
          by_cases hd : dateNaive events[first + 1].start_time =
              dateNaive events[first].start_time
          · rw [if_neg (by simp [hd])]
            rw [if_neg (by simpa using hd)] at hcons
            omega
          · rw [if_pos (by simpa using (Ne.symm hd))]
            rw [if_pos hd] at hcons
            omega
        rw [harg]
        obtain ⟨f2, h2, heq, hle1, hlt1, hwh, hhm⟩ :=
          ih (first + 1) last (windowH (win events (first + 1) last))
            (by
              have : windowH (win events (first + 1) last) + 1 <= height := by
                simp only [DATE_HEIGHT, EVENT_HEIGHT] at hcons
                omega
              omega)
            (by omega) hll rfl
        exact ⟨f2, h2, heq, by omega, hlt1, hwh, hhm⟩
      · exact absurd (by omega : first + 1 <= last) hc
      · exact ⟨first, height, rfl, le_refl first, hfl, hh, by omega⟩

/-- The forward growth extends the window past the pinned index, keeping
it fitting, non-empty, and correctly accounted. -/
theorem growSel_spec (events : List Event) (maxHeight idx : Nat)
    (hm : DATE_HEIGHT + EVENT_HEIGHT <= maxHeight) (hidx : idx < events.length) :
    ∀ (fuel : Nat) (first last height : Nat) (lastDate : Option Int),
      idx + 1 < fuel + last → 1 <= fuel →
      first < last → last <= events.length →
      height = windowH (win events first last) → height <= maxHeight →
      lastDate = some (evDate events (last - 1)) →
      ∃ f2 l2 h2 ld2,
        growSel events maxHeight idx fuel first last height lastDate =
          some (f2, l2, h2, ld2) ∧
        idx < l2 ∧ l2 <= events.length ∧ f2 < l2 ∧
        h2 = windowH (win events f2 l2) ∧ h2 <= maxHeight ∧
        ld2 = some (evDate events (l2 - 1)) := by
  intro fuel
  induction fuel with
  | zero =>
      intro first last height lastDate hfuel hf1
      omega
  | succ fuel ih =>
      intro first last height lastDate hfuel hf1 hfl hll hh hhm hld
      simp only [growSel]
      split_ifs with hcond
      · -- last <= idx: extend the window by one event at the back
        have hlast : last < events.length := by omega
        have he : events[last]? = some events[last] :=
          List.getElem?_eq_getElem hlast
        have hev : evDate events last = dateNaive events[last].start_time :=
          evDate_eq _ _ _ he
        have hwin : win events first (last + 1) =
            win events first last ++ [events[last]] :=
          win_snoc events first last events[last] (by omega) he
        have hwne : win events first last ≠ [] := by
          have hl := win_length events first last hll
          intro hnil
          rw [hnil] at hl
          simp at hl
          omega
        have happ := windowH_append_ne_nil (win events first last)
          events[last] hwne 0
        rw [lastDateOf_win events first last 0 hfl hll] at happ
        rw [he]
        simp only [Option.bind_eq_bind, Option.some_bind]
        have hfuel2 : 1 <= fuel := by omega
        by_cases hdc : some (dateNaive events[last].start_time) = lastDate
        · -- same date as the window's last event: no header charged
          rw [if_neg (by simp [hdc])]
          dsimp only
          have hde : dateNaive events[last].start_time =
              evDate events (last - 1) := by
            rw [hld] at hdc
            exact Option.some.inj hdc
          have hh2 : windowH (win events first (last + 1)) =
              height + EVENT_HEIGHT := by
            rw [hwin, happ, if_neg (by simpa using hde), hh]
            omega
          obtain ⟨f2, h2, heqS, hle1, hlt1, hwh, hhm2⟩ :=
            shrinkFront_spec events maxHeight hm
              (height + EVENT_HEIGHT + 1) first (last + 1)
              (height + EVENT_HEIGHT)
              (by omega) (by omega) (by omega) hh2.symm
          rw [heqS]
          simp only [Option.bind_eq_bind, Option.some_bind]
          obtain ⟨f3, l3, h3, ld3, heqG, hi3, hl3, hfl3, hwh3, hhm3, hld3⟩ :=
            ih f2 (last + 1) h2 lastDate
              (by omega) hfuel2 hlt1 (by omega) hwh hhm2
              (by
                simp only [Nat.add_sub_cancel]
                rw [← hdc, hev])
          exact ⟨f3, l3, h3, ld3, heqG, hi3, hl3, hfl3, hwh3, hhm3, hld3⟩
        · -- a new date: charge its header
          rw [if_pos hdc]
          dsimp only
          have hde : dateNaive events[last].start_time ≠
              evDate events (last - 1) := by
            intro hcon
            exact hdc (by rw [hld, hcon])
          have hh2 : windowH (win events first (last + 1)) =
              height + DATE_HEIGHT + EVENT_HEIGHT := by
            rw [hwin, happ, if_pos (by simpa using hde), hh]
            omega
          obtain ⟨f2, h2, heqS, hle1, hlt1, hwh, hhm2⟩ :=
            shrinkFront_spec events maxHeight hm
              (height + DATE_HEIGHT + EVENT_HEIGHT + 1) first (last + 1)
              (height + DATE_HEIGHT + EVENT_HEIGHT)
              (by omega) (by omega) (by omega) hh2.symm
          rw [heqS]
          simp only [Option.bind_eq_bind, Option.some_bind]
          obtain ⟨f3, l3, h3, ld3, heqG, hi3, hl3, hfl3, hwh3, hhm3, hld3⟩ :=
            ih f2 (last + 1) h2 (some (dateNaive events[last].start_time))
              (by omega) hfuel2 hlt1 (by omega) hwh hhm2
              (by
                simp only [Nat.add_sub_cancel]
                rw [hev])
          exact ⟨f3, l3, h3, ld3, heqG, hi3, hl3, hfl3, hwh3, hhm3, hld3⟩
      · -- the pinned index is already inside the window: stop
        exact ⟨first, last, height, lastDate, rfl, by omega, hll, hfl, hh,
          hhm, hld⟩

/-- Unfolding of the back shrink at a window end of at least two. -/
theorem shrinkBack_succ2 (events : List Event) (maxHeight fuel lp height : Nat) :
    shrinkBack events maxHeight (fuel + 1) (lp + 2) height =
      if height > maxHeight then do
        let eLast ← events[lp + 1]?
        let ePrev ← events[lp]?
        shrinkBack events maxHeight fuel (lp + 1)
          ((if dateNaive eLast.start_time ≠ dateNaive ePrev.start_time
            then height - DATE_HEIGHT else height) - EVENT_HEIGHT)
      else some (lp + 2, height) := rfl

/-- The back shrink terminates within its height budget of fuel, never
drops the window below one event, and restores a fitting window with the
height correctly accounted. -/
theorem shrinkBack_spec (events : List Event) (maxHeight : Nat)
    (hm : DATE_HEIGHT + EVENT_HEIGHT <= maxHeight) :
    ∀ (fuel : Nat) (first last height : Nat),
      height < fuel →
      first < last → last <= events.length →
      height = windowH (win events first last) →
      ∃ l2 h2,
        shrinkBack events maxHeight fuel last height = some (l2, h2) ∧
        first < l2 ∧ l2 <= last ∧
        h2 = windowH (win events first l2) ∧ h2 <= maxHeight := by
  intro fuel
  induction fuel with
  | zero =>
      intro first last height hfuel
      omega
  | succ fuel ih =>
      intro first last height hfuel hfl hll hh
      by_cases h1 : height > maxHeight
      · -- height > maxHeight: one shrink step at the back
        have hlen2 : 2 <= last - first := by
          have h2l := windowH_two_le (win events first last)
            (by
              rw [← hh]
              simp only [DATE_HEIGHT, EVENT_HEIGHT] at hm ⊢
              omega)
          rw [win_length events first last hll] at h2l
          exact h2l
        obtain ⟨lp, rfl⟩ : ∃ lp, last = lp + 2 := ⟨last - 2, by omega⟩
        have hp1 : lp + 1 < events.length := by omega
        have hp0 : lp < events.length := by omega
        have he1 : events[lp + 1]? = some events[lp + 1] :=
          List.getElem?_eq_getElem hp1
        have he0 : events[lp]? = some events[lp] :=
          List.getElem?_eq_getElem hp0
        have hback : win events first (lp + 2) =
            win events first (lp + 1) ++ [events[lp + 1]] :=
          win_back events first (lp + 2) events[lp + 1] hfl he1
        have hwne : win events first (lp + 1) ≠ [] := by
          have hl := win_length events first (lp + 1) (by omega)
          intro hnil
          rw [hnil] at hl
          simp at hl
          omega
        have happ := windowH_append_ne_nil (win events first (lp + 1))
          events[lp + 1] hwne 0
        rw [lastDateOf_win events first (lp + 1) 0 (by omega) (by omega)] at happ
        have hevp : evDate events lp = dateNaive events[lp].start_time :=
          evDate_eq _ _ _ he0
        have hsimp : lp + 1 - 1 = lp := rfl
        rw [hsimp] at happ
        rw [shrinkBack_succ2, if_pos h1, he1, he0]
        simp only [Option.bind_eq_bind, Option.some_bind]
        have harg :
            (if dateNaive events[lp + 1].start_time ≠
                dateNaive events[lp].start_time
              then height - DATE_HEIGHT else height) - EVENT_HEIGHT =
            windowH (win events first (lp + 1)) := by
          by_cases hd : dateNaive events[lp + 1].start_time =
              dateNaive events[lp].start_time
          · rw [if_neg (by simpa using hd)]
            rw [hback, happ] at hh
            rw [if_neg (by rw [hevp]; simpa using hd)] at hh
            omega
          · rw [if_pos hd]
            rw [hback, happ] at hh
            rw [if_pos (by rw [hevp]; simpa using hd)] at hh
            omega
        rw [harg]
        obtain ⟨l2, h2, heq, hlt1, hle1, hwh, hhm2⟩ :=
          ih first (lp + 1) (windowH (win events first (lp + 1)))
            (by
              have hgt : windowH (win events first (lp + 1)) + 1 <= height := by
                rw [hback, happ] at hh
                simp only [DATE_HEIGHT, EVENT_HEIGHT] at hh
                omega
              omega)
            (by omega) (by omega) rfl
        exact ⟨l2, h2, heq, hlt1, by omega, hwh, hhm2⟩
      · simp only [shrinkBack]
        rw [if_neg h1]
        exact ⟨last, height, rfl, hfl, le_refl last, hh, by omega⟩

/-- The backward growth pulls the window's front down to the pinned index,
keeping the window fitting and ahead of the index. -/
theorem growBack_spec (events : List Event) (maxHeight idx : Nat)
    (hm : DATE_HEIGHT + EVENT_HEIGHT <= maxHeight) :
    ∀ (fuel : Nat) (first last height : Nat),
      first + 1 <= fuel + idx → 1 <= fuel →
      first < last → last <= events.length → idx < last →
      height = windowH (win events first last) → height <= maxHeight →
      ∃ f2 l2,
        growBack events maxHeight idx fuel first last height = some (f2, l2) ∧
        f2 <= idx ∧ idx < l2 ∧ l2 <= events.length := by
  intro fuel
  induction fuel with
  | zero =>
      intro first last height hfuel hf1
      omega
  | succ fuel ih =>
      intro first last height hfuel hf1 hfl hll hil hh hhm
      simp only [growBack]
      split_ifs with hcond
      · -- idx < first: extend the window by one event at the front
        have hf0 : 1 <= first := by omega
        have hfm1 : first - 1 < events.length := by omega
        have hfin : first < events.length := by omega
        have hem1 : events[first - 1]? = some events[first - 1] :=
          List.getElem?_eq_getElem hfm1
        have he0 : events[first]? = some events[first] :=
          List.getElem?_eq_getElem hfin
        have hcons : win events (first - 1) last =
            events[first - 1] :: win events first last :=
          win_cons events first last events[first - 1] hf0 (by omega) hem1
        have hfront : win events first last =
            events[first] :: win events (first + 1) last :=
          win_front events first last events[first] hfl he0
        have hwh1 :
            windowH (win events (first - 1) last) =
              windowH (win events first last) +
                ((if dateNaive events[first].start_time ≠
                    dateNaive events[first - 1].start_time
                  then DATE_HEIGHT else 0) + EVENT_HEIGHT) := by
          rw [hcons, hfront, windowH_cons, ← hfront]
        rw [hem1, he0]
        simp only [Option.bind_eq_bind, Option.some_bind]
        have harg :
            (if dateNaive events[first - 1].start_time ≠
                dateNaive events[first].start_time
              then height + DATE_HEIGHT else height) + EVENT_HEIGHT =
            windowH (win events (first - 1) last) := by
          by_cases hd : dateNaive events[first - 1].start_time =
              dateNaive events[first].start_time
          · rw [if_neg (by simp [hd])]
            rw [hwh1, if_neg (not_ne_iff.mpr hd.symm)]
            omega
          · rw [if_pos hd]
            rw [hwh1, if_pos (fun hcc => hd hcc.symm)]
            omega
        rw [harg]
        obtain ⟨l2, h2, heqS, hlt1, hle1, hwh, hhm2⟩ :=
          shrinkBack_spec events maxHeight hm
            (windowH (win events (first - 1) last) + 1) (first - 1) last
            (windowH (win events (first - 1) last))
            (by omega) (by omega) hll rfl
        rw [heqS]
        simp only [Option.bind_eq_bind, Option.some_bind]
        obtain ⟨f3, l3, heqG, hf3, hi3, hl3⟩ :=
          ih (first - 1) l2 h2
            (by omega) (by omega) hlt1 (by omega)
            (by omega) hwh hhm2
        exact ⟨f3, l3, heqG, hf3, hi3, hl3⟩
      · exact ⟨first, last, rfl, by omega, hil, hll⟩

/-- Totality and containment of the viewport window computation: with a
row budget of at least one date header plus one event, the computation
returns a window `[f, l)` of the sequence that contains the displayed
index (the selection, or the clamped offset when unselected). -/
theorem get_events_bounds_spec (events : List Event) (selected : Option Nat)
    (offset maxHeight : Nat)
    (hm : DATE_HEIGHT + EVENT_HEIGHT <= maxHeight) (hne : events ≠ [])
    (hsel : ∀ s, selected = some s → s < events.length) :
    ∃ f l,
      get_events_bounds events selected offset maxHeight = some (f, l) ∧
      f <= selected.getD (min offset (events.length - 1)) ∧
      selected.getD (min offset (events.length - 1)) < l ∧
      l <= events.length := by
  have hlen : 0 < events.length := List.length_pos.mpr hne
  have hofflt : min offset (events.length - 1) < events.length := by
    have := Nat.min_le_right offset (events.length - 1)
    omega
  obtain ⟨l2, h2, heqF, holt, hle, hwh, hhm⟩ :=
    fillLoop_post events maxHeight (min offset (events.length - 1)) hm hofflt
  have hidxlt : selected.getD (min offset (events.length - 1)) <
      events.length := by
    cases hselc : selected with
    | none => simpa using hofflt
    | some s => simpa using hsel s hselc
  obtain ⟨f2, l3, h3, ld3, heqG, hi3, hl3, hfl3, hwh3, hhm3, hld3⟩ :=
    growSel_spec events maxHeight
      (selected.getD (min offset (events.length - 1))) hm hidxlt
      (events.length + 1) (min offset (events.length - 1)) l2 h2
      (some (evDate events (l2 - 1)))
      (by omega) (by omega) holt hle hwh hhm rfl
  obtain ⟨f4, l4, heqB, hf4, hi4, hl4⟩ :=
    growBack_spec events maxHeight
      (selected.getD (min offset (events.length - 1))) hm
      (events.length + 1) f2 l3 h3
      (by omega) (by omega) hfl3 hl3 hi3 hwh3 hhm3
  refine ⟨f4, l4, ?_, hf4, hi4, hl4⟩
  simp only [get_events_bounds]
  rw [heqF]
  dsimp only
  rw [heqG]
  simp only [Option.bind_eq_bind, Option.some_bind]
  exact heqB

/-! ## Claim C2: viewport containment -/

/-- Counterexample to C2 as stated: the claim quantifies over every
`max_height`, but with a budget of 2 rows (less than one date header plus
one event) the window computation returns the empty window `(1, 1)` for a
three-event sequence with `selected = 1`, violating both
`first ≤ selected < last` and `last − first > 0`; with a budget of 1 row
and a singleton sequence it even panics (index out of range while
shrinking). -/
theorem c2_counterexample :
    get_events_bounds
      [⟨0, "", "", ⟨.Unknown "", 0⟩, .Unknown "", none, []⟩,
       ⟨10, "", "", ⟨.Unknown "", 0⟩, .Unknown "", none, []⟩,
       ⟨20, "", "", ⟨.Unknown "", 0⟩, .Unknown "", none, []⟩]
      (some 1) 0 2 = some (1, 1) ∧
    ¬ ((1 : Nat) < 1) ∧
    get_events_bounds [⟨0, "", "", ⟨.Unknown "", 0⟩, .Unknown "", none, []⟩]
      (some 0) 0 1 = none := by
  refine ⟨by decide, by decide, by decide⟩

/-- Claim C2 amended: for every event sequence of length `len > 0`, every
prior `offset`, every selected index in `[0, len)`, and every `max_height`
of at least `DATE_HEIGHT + EVENT_HEIGHT = 4` rows, the window computation
returns a pair `(first, last)` with `first ≤ selected < last` and
`last − first > 0` (for `max_height < 4` it can panic or return an empty
window).  Sortedness of the sequence is not needed. -/
theorem c2_viewport_containment (events : List Event)
    (s offset maxHeight : Nat) (hlen : 0 < events.length)
    (hs : s < events.length)
    (hm : DATE_HEIGHT + EVENT_HEIGHT ≤ maxHeight) :
    ∃ f l,
      get_events_bounds events (some s) offset maxHeight = some (f, l) ∧
      f ≤ s ∧ s < l ∧ 0 < l - f ∧ l ≤ events.length := by
  obtain ⟨f, l, heq, h1, h2, h3⟩ :=
    get_events_bounds_spec events (some s) offset maxHeight hm
      (by
        intro hnil
        rw [hnil] at hlen
        simp at hlen)
      (by
        intro s' hs'
        cases hs'
        exact hs)
  simp only [Option.getD_some] at h1 h2
  exact ⟨f, l, heq, h1, h2, by omega, h3⟩

/-- Witness for C2 amended: a three-event sequence, `selected = 1`,
`offset = 0`, budget 8. -/
theorem c2_viewport_containment_witness :
    ∃ f l,
      get_events_bounds
        [⟨0, "", "", ⟨.Unknown "", 0⟩, .Unknown "", none, []⟩,
         ⟨10, "", "", ⟨.Unknown "", 0⟩, .Unknown "", none, []⟩,
         ⟨20, "", "", ⟨.Unknown "", 0⟩, .Unknown "", none, []⟩]
        (some 1) 0 8 = some (f, l) ∧
      f ≤ 1 ∧ 1 < l ∧ 0 < l - f ∧
      l ≤ ([⟨0, "", "", ⟨.Unknown "", 0⟩, .Unknown "", none, []⟩,
            ⟨10, "", "", ⟨.Unknown "", 0⟩, .Unknown "", none, []⟩,
            ⟨20, "", "", ⟨.Unknown "", 0⟩, .Unknown "", none,
              []⟩] : List Event).length :=
  c2_viewport_containment
    [⟨0, "", "", ⟨.Unknown "", 0⟩, .Unknown "", none, []⟩,
     ⟨10, "", "", ⟨.Unknown "", 0⟩, .Unknown "", none, []⟩,
     ⟨20, "", "", ⟨.Unknown "", 0⟩, .Unknown "", none, []⟩]
    1 0 8 (by decide) (by decide) (by decide)

/-! ## Claim C3: panic freedom -/

/-- An option-valued map over a list succeeds when it succeeds pointwise
(auxiliary form over `mapM'`). -/
theorem mapM'_isSome {α β : Type} (f : α → Option β) :
    ∀ l : List α, (∀ a ∈ l, (f a).isSome) → (l.mapM' f).isSome := by
  intro l
  induction l with
  | nil => intro h; simp [List.mapM']
  | cons x t ih =>
      intro h
      simp only [List.mapM']
      obtain ⟨y, hy⟩ := Option.isSome_iff_exists.mp (h x (by simp))
      obtain ⟨ys, hys⟩ := Option.isSome_iff_exists.mp
        (ih fun a ha => h a (by simp [ha]))
      rw [hy, hys]
      rfl

/-- An option-valued map over a list succeeds when it succeeds pointwise. -/
theorem mapM_isSome {α β : Type} (f : α → Option β) (l : List α)
    (h : ∀ a ∈ l, (f a).isSome) : (l.mapM f).isSome := by
  rw [← List.mapM'_eq_mapM]
  exact mapM'_isSome f l h

/-- Counterexample to C3 as stated: the conversion of a fetched remote
event into a domain `Event` calls `.parse().unwrap()` on the timestamp and
indexes `teams[0]`/`teams[1]` unconditionally, so it panics (modelled as
`none`) on an unparseable `start_time` or a match with fewer than two
teams; and the viewport computation panics for a singleton sequence with
`max_height = 1`. -/
theorem c3_counterexample :
    Event.fromNet ⟨"not a date", "Week 1",
        ⟨[⟨"T1", "", "T1 team", none, none⟩,
          ⟨"GEN", "", "Gen.G", none, none⟩], "m1", ⟨3, "bestOf"⟩⟩,
        "unstarted", "match", ⟨"LCK", "lck"⟩⟩ = none ∧
    Event.fromNet ⟨"2024-01-01T10:00:00Z", "Week 1",
        ⟨[], "m1", ⟨3, "bestOf"⟩⟩,
        "unstarted", "match", ⟨"LCK", "lck"⟩⟩ = none ∧
    get_events_bounds [⟨0, "", "", ⟨.Unknown "", 0⟩, .Unknown "", none, []⟩]
      (some 0) 0 1 = none ∧
    get_events_bounds [⟨0, "", "", ⟨.Unknown "", 0⟩, .Unknown "", none, []⟩]
      (some 0) 0 4 = some (0, 1) := by
  refine ⟨rfl, rfl, by decide, by decide⟩

/-- Claim C3 amended: the cache-and-fetch orchestration and the viewport
computation cannot panic on their own — `get_leagues` never fails when the
fetch succeeds, `get_schedule` yields a value whenever the fetch fails
(the clean absence) or every fetched event is well-formed, the remote
conversion succeeds on every well-formed event (parseable `start_time`,
at least two teams), and the window computation returns a value whenever
`max_height ≥ DATE_HEIGHT + EVENT_HEIGHT` and the selection is in range —
but the conversion of a malformed remote event and the viewport
computation under a smaller budget can panic, so not every operation is
panic-free for every input. -/
theorem c3_no_panic_where_wellformed :
    (∀ now : Int, ∀ cacheRes : Option (List League × Int),
      ∀ ls : List NetLeague,
        (get_leagues now cacheRes (some ls)).isSome) ∧
    (∀ now : Int, ∀ cacheRes : Option (List Event × Int),
        (get_schedule now cacheRes none).isSome) ∧
    (∀ e : NetEvent, (parseDateTime e.start_time).isSome →
        2 ≤ e.match_field.teams.length → (Event.fromNet e).isSome) ∧
    (∀ now : Int, ∀ cacheRes : Option (List Event × Int),
      ∀ sched : NetSchedule,
        (∀ e ∈ sched.events, (parseDateTime e.start_time).isSome ∧
          2 ≤ e.match_field.teams.length) →
        (get_schedule now cacheRes (some sched)).isSome) ∧
    (∀ events : List Event, ∀ s offset maxHeight : Nat,
        s < events.length → DATE_HEIGHT + EVENT_HEIGHT ≤ maxHeight →
        (get_events_bounds events (some s) offset maxHeight).isSome) := by
  have hconv : ∀ e : NetEvent, (parseDateTime e.start_time).isSome →
      2 ≤ e.match_field.teams.length → (Event.fromNet e).isSome := by
    intro e hp ht
    unfold Event.fromNet
    obtain ⟨t, hti⟩ := Option.isSome_iff_exists.mp hp
    have h0 : e.match_field.teams[0]? =
        some e.match_field.teams[0] := List.getElem?_eq_getElem (by omega)
    have h1 : e.match_field.teams[1]? =
        some e.match_field.teams[1] := List.getElem?_eq_getElem (by omega)
    rw [hti]
    unfold matchResultFromNet
    rw [h0, h1]
    cases e.match_field.teams[0].result <;>
      cases e.match_field.teams[1].result <;> simp
  refine ⟨?_, ?_, hconv, ?_, ?_⟩
  · intro now cacheRes ls
    unfold get_leagues fetchLeaguesPath
    cases cacheRes with
    | none => simp
    | some p =>
        cases p with
        | mk leagues ct =>
            dsimp only
            split_ifs <;> simp
  · intro now cacheRes
    unfold get_schedule fetchSchedulePath
    cases cacheRes with
    | none => simp
    | some p =>
        cases p with
        | mk events ct =>
            dsimp only
            split_ifs <;> simp
  · intro now cacheRes sched hgood
    have hfetch : (fetchSchedulePath (some sched)).isSome := by
      unfold fetchSchedulePath
      dsimp only
      have := mapM_isSome Event.fromNet sched.events
        (fun a ha => hconv a (hgood a ha).1 (hgood a ha).2)
      obtain ⟨v, hv⟩ := Option.isSome_iff_exists.mp this
      rw [hv]
      simp
    unfold get_schedule
    cases cacheRes with
    | none => exact hfetch
    | some p =>
        cases p with
        | mk events ct =>
            dsimp only
            split_ifs <;> first | exact hfetch | simp
  · intro events s offset maxHeight hs hm
    obtain ⟨f, l, heq, _, _, _⟩ :=
      get_events_bounds_spec events (some s) offset maxHeight hm
        (by
          intro hnil
          rw [hnil] at hs
          simp at hs)
        (by
          intro s' hs'
          cases hs'
          exact hs)
    rw [heq]
    rfl

/-- Witness for C3 amended, at concrete inputs: a failing fetch yields the
clean absence; a well-formed remote event converts; a well-formed fetched
schedule is returned; the viewport computation returns on a singleton
sequence with budget 4. -/
theorem c3_no_panic_where_wellformed_witness :
    (get_schedule 0 none none).isSome ∧
    (Event.fromNet ⟨"2024-01-01T10:00:00Z", "Week 1",
        ⟨[⟨"T1", "", "T1 team", none, none⟩,
          ⟨"GEN", "", "Gen.G", none, none⟩], "m1", ⟨3, "bestOf"⟩⟩,
        "unstarted", "match", ⟨"LCK", "lck"⟩⟩).isSome ∧
    (get_schedule 0 none (some ⟨⟨none, none⟩,
        [⟨"2024-01-01T10:00:00Z", "Week 1",
          ⟨[⟨"T1", "", "T1 team", none, none⟩,
            ⟨"GEN", "", "Gen.G", none, none⟩], "m1", ⟨3, "bestOf"⟩⟩,
          "unstarted", "match", ⟨"LCK", "lck"⟩⟩]⟩)).isSome ∧
    (get_events_bounds [⟨0, "", "", ⟨.Unknown "", 0⟩, .Unknown "", none, []⟩]
      (some 0) 0 4).isSome :=
  ⟨c3_no_panic_where_wellformed.2.1 0 none,
   c3_no_panic_where_wellformed.2.2.1 ⟨"2024-01-01T10:00:00Z", "Week 1",
      ⟨[⟨"T1", "", "T1 team", none, none⟩,
        ⟨"GEN", "", "Gen.G", none, none⟩], "m1", ⟨3, "bestOf"⟩⟩,
      "unstarted", "match", ⟨"LCK", "lck"⟩⟩ (by decide) (by decide),
   c3_no_panic_where_wellformed.2.2.2.1 0 none ⟨⟨none, none⟩,
      [⟨"2024-01-01T10:00:00Z", "Week 1",
        ⟨[⟨"T1", "", "T1 team", none, none⟩,
          ⟨"GEN", "", "Gen.G", none, none⟩], "m1", ⟨3, "bestOf"⟩⟩,
        "unstarted", "match", ⟨"LCK", "lck"⟩⟩]⟩
      (by
        intro e he
        simp only [List.mem_singleton] at he
        subst he
        exact ⟨by decide, by decide⟩),
   c3_no_panic_where_wellformed.2.2.2.2
      [⟨0, "", "", ⟨.Unknown "", 0⟩, .Unknown "", none, []⟩] 0 0 4
      (by decide) (by decide)⟩

end LolCal
